import Mathlib

/-!
Shallow embedding of the multi-step operation planning and execution engine
(`operation-executor.server.ts`) of the shopifyassistant repository, together
with proofs about its retry policy, scheduler, context accumulation, parameter
resolution and plan status management.

JavaScript `any` values flowing through the engine (step params, tool results,
context entries) are modelled as a JSON value type `Value`.  JS numbers are
modelled as integers: every number appearing in the engine's own logic is
produced by `JSON.parse` of integer literals, and floating point behaviour is
out of scope.  The three Shopify tool functions (`executeShopifyQuery`,
`executeShopifyMutation`, `introspectShopifySchema`) are external HTTP calls;
they are modelled by an oracle `Oracle` giving, per tool name and processed
parameters, either a returned JSON result or a thrown error message.
-/

namespace OperationExecutor

/-- JSON value, the model of JavaScript `any` data handled by the engine. -/
inductive Value where
  | vnull
  | vbool (b : Bool)
  | vnum (n : Int)
  | vstr (s : String)
  | varr (elems : List Value)
  | vobj (fields : List (String × Value))
deriving Repr

/-- `context` objects (`Record<string, any>`) as ordered key/value lists,
first occurrence of a key being the binding (JS objects have unique keys;
`ctxSet` keeps it that way). -/
abbrev Context := List (String × Value)

/-- JS property read `context[key]`, `some` iff the value is not `undefined`. -/
def ctxLookup (ctx : Context) (k : String) : Option Value :=
  (List.find? (fun p => p.1 = k) ctx).map (·.2)

/-- JS property write `context[key] = v`: overwrite in place if the key exists,
otherwise append (JS insertion order semantics). -/
def ctxSet (ctx : Context) (k : String) (v : Value) : Context :=
  if List.any ctx (fun p => p.1 = k) then
    List.map (fun p => if p.1 = k then (k, v) else p) ctx
  else
    List.append ctx [(k, v)]

/-- Hex digit used by `JSON.stringify` control-character escapes (lowercase,
as V8 prints them). -/
def hexChar (n : Nat) : Char :=
  if n < 10 then Char.ofNat (48 + n) else Char.ofNat (87 + n)

/-- Escaping of one character inside a JSON string literal, as performed by
`JSON.stringify`. -/
def escChar (c : Char) : List Char :=
  if c = '"' then ['\\', '"']
  else if c = '\\' then ['\\', '\\']
  else if c = '\n' then ['\\', 'n']
  else if c = '\t' then ['\\', 't']
  else if c = '\r' then ['\\', 'r']
  else if c = Char.ofNat 8 then ['\\', 'b']
  else if c = Char.ofNat 12 then ['\\', 'f']
  else if c.toNat < 32 then
    ['\\', 'u', '0', '0', hexChar (c.toNat / 16), hexChar (c.toNat % 16)]
  else [c]

/-- Escape a whole string body for `JSON.stringify`. -/
def escString : List Char → List Char
  | [] => []
  | c :: cs => escChar c ++ escString cs

mutual

/-- `JSON.stringify` on the JSON value model (no indentation argument, as in
the source's `JSON.stringify(params)`). -/
def stringify : Value → String
  | .vnull => "null"
  | .vbool true => "true"
  | .vbool false => "false"
  | .vnum n => toString n
  | .vstr s => String.mk ('"' :: escString s.data ++ ['"'])
  | .varr xs => "[" ++ String.intercalate "," (stringifyElems xs) ++ "]"
  | .vobj fs => "\x7b" ++ String.intercalate "," (stringifyMembers fs) ++ "\x7d"

/-- Stringify each array element. -/
def stringifyElems : List Value → List String
  | [] => []
  | v :: vs => stringify v :: stringifyElems vs

/-- Stringify each object member as `"key":value`. -/
def stringifyMembers : List (String × Value) → List String
  | [] => []
  | (k, v) :: fs =>
      (String.mk ('"' :: escString k.data ++ ['"']) ++ ":" ++ stringify v)
        :: stringifyMembers fs

end

/-- JSON whitespace skipping for the `JSON.parse` model. -/
def skipWs : List Char → List Char
  | c :: cs =>
      if c = ' ' ∨ c = '\n' ∨ c = '\t' ∨ c = '\r' then skipWs cs else c :: cs
  | [] => []

/-- Numeric value of a hex digit, if any. -/
def hexVal (c : Char) : Option Nat :=
  if '0' ≤ c ∧ c ≤ '9' then some (c.toNat - 48)
  else if 'a' ≤ c ∧ c ≤ 'f' then some (c.toNat - 87)
  else if 'A' ≤ c ∧ c ≤ 'F' then some (c.toNat - 55)
  else none

/-- Match an expected literal character sequence. -/
def expectChars : List Char → List Char → Option (List Char)
  | [], cs => some cs
  | e :: es, c :: cs => if c = e then expectChars es cs else none
  | _ :: _, [] => none

/-- Parse the body of a JSON string literal (after the opening quote),
returning its characters and the rest of the input. -/
def parseStringBody : Nat → List Char → Option (List Char × List Char)
  | 0, _ => none
  | _, [] => none
  | fuel + 1, c :: rest =>
    if c = '"' then some ([], rest)
    else if c = '\\' then
      match rest with
      | [] => none
      | e :: rest2 =>
        let dec :=
          if e = '"' then some ('"', rest2)
          else if e = '\\' then some ('\\', rest2)
          else if e = '/' then some ('/', rest2)
          else if e = 'n' then some ('\n', rest2)
          else if e = 't' then some ('\t', rest2)
          else if e = 'r' then some ('\r', rest2)
          else if e = 'b' then some (Char.ofNat 8, rest2)
          else if e = 'f' then some (Char.ofNat 12, rest2)
          else if e = 'u' then
            match rest2 with
            | h1 :: h2 :: h3 :: h4 :: rest3 =>
              match hexVal h1, hexVal h2, hexVal h3, hexVal h4 with
              | some a, some b, some c2, some d2 =>
                  some (Char.ofNat (((a * 16 + b) * 16 + c2) * 16 + d2), rest3)
              | _, _, _, _ => none
            | _ => none
          else none
        match dec with
        | some (ch, rest3) =>
            (parseStringBody fuel rest3).map (fun p => (ch :: p.1, p.2))
        | none => none
    else (parseStringBody fuel rest).map (fun p => (c :: p.1, p.2))

/-- Digit run of a JSON number. -/
def takeDigits : List Char → List Char × List Char
  | [] => ([], [])
  | c :: cs =>
      if c.isDigit then
        let p := takeDigits cs
        (c :: p.1, p.2)
      else ([], c :: cs)

/-- Digits to a natural number. -/
def digitsToNat : List Char → Nat → Nat
  | [], acc => acc
  | c :: cs, acc => digitsToNat cs (acc * 10 + (c.toNat - 48))

/-- Parse a JSON integer (the engine only ever round-trips integers; JSON
fractions/exponents are outside the model, see the header comment). -/
def parseNumber (cs : List Char) : Option (Int × List Char) :=
  match cs with
  | '-' :: rest =>
      match takeDigits rest with
      | ([], _) => none
      | (ds, rest2) => some (-(Int.ofNat (digitsToNat ds 0)), rest2)
  | _ =>
      match takeDigits cs with
      | ([], _) => none
      | (ds, rest2) => some (Int.ofNat (digitsToNat ds 0), rest2)

mutual

/-- `JSON.parse` value parser (fueled; `jsonParse` supplies ample fuel). -/
def parseValue : Nat → List Char → Option (Value × List Char)
  | 0, _ => none
  | fuel + 1, cs =>
    match skipWs cs with
    | [] => none
    | c :: rest =>
      if c = 'n' then
        (expectChars ['u', 'l', 'l'] rest).map (fun r => (Value.vnull, r))
      else if c = 't' then
        (expectChars ['r', 'u', 'e'] rest).map (fun r => (Value.vbool true, r))
      else if c = 'f' then
        (expectChars ['a', 'l', 's', 'e'] rest).map (fun r => (Value.vbool false, r))
      else if c = '"' then
        (parseStringBody (fuel + 1) rest).map (fun p => (Value.vstr (String.mk p.1), p.2))
      else if c = '\x7b' then
        match skipWs rest with
        | '\x7d' :: rest2 => some (Value.vobj [], rest2)
        | rest2 => (parseMembers fuel rest2).map (fun p => (Value.vobj p.1, p.2))
      else if c = '[' then
        match skipWs rest with
        | ']' :: rest2 => some (Value.varr [], rest2)
        | rest2 => (parseElems fuel rest2).map (fun p => (Value.varr p.1, p.2))
      else
        (parseNumber (c :: rest)).map (fun p => (Value.vnum p.1, p.2))

/-- Parse one or more comma-separated object members up to the closing brace. -/
def parseMembers : Nat → List Char → Option (List (String × Value) × List Char)
  | 0, _ => none
  | fuel + 1, cs =>
    match skipWs cs with
    | '"' :: rest =>
      match parseStringBody (fuel + 1) rest with
      | none => none
      | some (key, rest2) =>
        match skipWs rest2 with
        | ':' :: rest3 =>
          match parseValue fuel rest3 with
          | none => none
          | some (v, rest4) =>
            match skipWs rest4 with
            | ',' :: rest5 =>
                (parseMembers fuel rest5).map
                  (fun p => ((String.mk key, v) :: p.1, p.2))
            | '\x7d' :: rest5 => some ([(String.mk key, v)], rest5)
            | _ => none
        | _ => none
    | _ => none

/-- Parse one or more comma-separated array elements up to the closing bracket. -/
def parseElems : Nat → List Char → Option (List Value × List Char)
  | 0, _ => none
  | fuel + 1, cs =>
    match parseValue fuel cs with
    | none => none
    | some (v, rest) =>
      match skipWs rest with
      | ',' :: rest2 => (parseElems fuel rest2).map (fun p => (v :: p.1, p.2))
      | ']' :: rest2 => some ([v], rest2)
      | _ => none

end

/-- `JSON.parse`: `some` on success, `none` models a thrown `SyntaxError`. -/
def jsonParse (s : String) : Option Value :=
  match parseValue (4 * s.length + 4) s.data with
  | some (v, rest) => if skipWs rest = [] then some v else none
  | none => none

/-- JS `s.slice(1, -1)`: drop the first and the last character. -/
def sliceOneNegOne (s : String) : String :=
  String.mk ((s.data.drop 1).dropLast)

/-- Match the tail of a template token: the regex `/{{([^}]+)}}/` after its
leading two braces — a nonempty run of non-`\x7d` characters followed by two
closing braces.  Returns the captured key and the input after the match. -/
def matchTemplateKey (cs : List Char) : Option (List Char × List Char) :=
  let key := cs.takeWhile (fun c => c ≠ '\x7d')
  match cs.dropWhile (fun c => c ≠ '\x7d') with
  | '\x7d' :: '\x7d' :: rest => if key.isEmpty then none else some (key, rest)
  | _ => none

/-- Fueled scanner implementing the global regex replacement
`paramsStr.replace(/{{([^}]+)}}/g, ...)` of `processStepParameters`:
left-to-right scan; a matched token whose key is bound in the context is
replaced by `JSON.stringify(value).slice(1, -1)`, an unbound token is kept
verbatim, and a failed match advances one character (the regex engine
restarting at the next position).  Fuel accounting: every recursive call spends
one fuel and the remaining input shrinks by at least one character (by at
least `key.length + 4 ≥ 5` in the matched-token branch, via
`matchTemplateKey_length`; by exactly one in the other two branches), so with
the fuel `cs.length` supplied by `replaceVars` the invariant
`remaining.length ≤ fuel` holds throughout and the `0` case is reached only
with empty remaining input, where it agrees with the `[]` case. -/
def replaceVarsGo (ctx : Context) : Nat → List Char → List Char
  | _, [] => []
  | 0, cs => cs
  | fuel + 1, '\x7b' :: '\x7b' :: rest =>
    match matchTemplateKey rest with
    | some (key, rest2) =>
      (match ctxLookup ctx (String.mk key) with
       | some v => (sliceOneNegOne (stringify v)).data
       | none => '\x7b' :: '\x7b' :: (key ++ ['\x7d', '\x7d']))
        ++ replaceVarsGo ctx fuel rest2
    | none => '\x7b' :: replaceVarsGo ctx fuel ('\x7b' :: rest)
  | fuel + 1, c :: rest => c :: replaceVarsGo ctx fuel rest

/-- The regex replacement over a whole character list. -/
def replaceVars (ctx : Context) (cs : List Char) : List Char :=
  replaceVarsGo ctx cs.length cs


/-- `processStepParameters`: stringify the params, substitute context
variables textually, and parse the result back; `none` models the
`JSON.parse` exception on a substitution that breaks the JSON syntax. -/
def processStepParameters (params : Value) (context : Context) : Option Value :=
  jsonParse (String.mk (replaceVars context (stringify params).data))

/-- Step lifecycle states. -/
inductive StepStatus where
  | pending
  | running
  | completed
  | failed
deriving Repr, DecidableEq

/-- Plan lifecycle states (`waiting_for_input` is set only by the caller
layer, never by the engine). -/
inductive PlanStatus where
  | planning
  | executing
  | completed
  | failed
  | waitingForInput
deriving Repr, DecidableEq

/-- `OperationStep` of the source; optional TS fields become `Option`. -/
structure OperationStep where
  id : String
  toolName : String
  params : Value
  dependsOn : Option (List String)
  status : StepStatus
  result : Option Value
  error : Option String
  retryCount : Nat
  maxRetries : Nat
deriving Repr

/-- `OperationPlan` of the source. -/
structure OperationPlan where
  id : String
  steps : List OperationStep
  currentStepIndex : Nat
  status : PlanStatus
  context : Context
  userMessage : String
  response : Option String
deriving Repr

/-- Default used with `List.getD` when indexing into `steps` (every such read
in the development is guarded by an index bound, so the default is inert). -/
def defaultStep : OperationStep :=
  { id := "", toolName := "", params := .vnull, dependsOn := none,
    status := .pending, result := none, error := none,
    retryCount := 0, maxRetries := 0 }

/-- Model of the three external Shopify tool functions: given the tool name
and the processed parameters, either a returned JSON result (`ok`) or a thrown
error message (`error`, modelling a rejected promise). -/
def Oracle := String → Value → Except String Value

/-- JS truthiness of a JSON value (`if (result.error)`, `&& result.data`). -/
def truthy : Value → Bool
  | .vnull => false
  | .vbool b => b
  | .vnum n => n != 0
  | .vstr s => s != ""
  | .varr _ => true
  | .vobj _ => true

/-- JS property read `v.k` on an arbitrary value: `some` iff defined. -/
def getField (v : Value) (k : String) : Option Value :=
  match v with
  | .vobj fs => (List.find? (fun p => p.1 = k) fs).map (·.2)
  | _ => none

mutual

/-- JS `String(x)` coercion, used for the message of
`new Error(result.error)`. -/
def jsToString : Value → String
  | .vstr s => s
  | .vnum n => toString n
  | .vnull => "null"
  | .vbool true => "true"
  | .vbool false => "false"
  | .vobj _ => "[object Object]"
  | .varr xs => String.intercalate "," (jsToStringElems xs)

/-- Array elements under `Array.prototype.toString` (null renders empty). -/
def jsToStringElems : List Value → List String
  | [] => []
  | .vnull :: vs => "" :: jsToStringElems vs
  | v :: vs => jsToString v :: jsToStringElems vs

end

/-- The literal object returned for the `web_search` tool name. -/
def webSearchResult : Value :=
  .vobj [("error", .vstr "Web search is not available in the current implementation. Please use introspect_schema instead.")]

/-- The body of `executeStep`'s `try` block: resolve the parameters, dispatch
on the tool name (an unknown name throws `Unknown tool: ...`), and convert a
returned result whose `error` field is truthy into a thrown error. -/
def runTool (oracle : Oracle) (toolName : String) (params : Value) (context : Context) :
    Except String Value :=
  match processStepParameters params context with
  | none => Except.error "Unexpected token in JSON"
  | some processedParams =>
    match
      (if toolName = "execute_query" then oracle "execute_query" processedParams
       else if toolName = "execute_mutation" then oracle "execute_mutation" processedParams
       else if toolName = "introspect_schema" then oracle "introspect_schema" processedParams
       else if toolName = "web_search" then Except.ok webSearchResult
       else Except.error ("Unknown tool: " ++ toolName)) with
    | Except.error e => Except.error e
    | Except.ok result =>
      match getField result "error" with
      | some ev => if truthy ev then Except.error (jsToString ev) else Except.ok result
      | none => Except.ok result

/-- The retry annotation `` `Error (retry ${rc}/${max}): ${msg}` ``. -/
def annotError (rc max : Nat) (msg : String) : String :=
  "Error (retry " ++ toString rc ++ "/" ++ toString max ++ "): " ++ msg

/-- `executeStep`: marks the step `running`, runs the tool, and on success
marks it `completed` with the result stored; on a thrown error it increments
`retryCount` and either marks the step `failed` (retries exhausted,
`retryCount > maxRetries`) or resets it to `pending` with an annotated error.
The boolean is `true` when the TS function returns normally and `false` when
it re-throws (both failure branches re-throw to the caller). -/
def executeStep (oracle : Oracle) (step : OperationStep) (context : Context) :
    OperationStep × Bool :=
  let running := { step with status := StepStatus.running }
  match runTool oracle running.toolName running.params context with
  | Except.ok result =>
      ({ running with status := StepStatus.completed, result := some result }, true)
  | Except.error msg =>
      let rc := running.retryCount + 1
      if rc > running.maxRetries then
        ({ running with retryCount := rc, status := StepStatus.failed, error := some msg }, false)
      else
        ({ running with retryCount := rc, status := StepStatus.pending, error := some (annotError rc running.maxRetries msg) }, false)

/-- One dependency lookup of `getNextExecutableStep`:
`depStep && depStep.status === 'completed'` for the first plan step found with
the given id. -/
def depCompleted (steps : List OperationStep) (depId : String) : Bool :=
  match List.find? (fun s => s.id = depId) steps with
  | some depStep => depStep.status == StepStatus.completed
  | none => false

/-- Dependency check of `getNextExecutableStep`: every id in `dependsOn` must
resolve (by `find`) to a step of the plan whose status is `completed`; a step
without a `dependsOn` field passes vacuously. -/
def stepDepsMet (steps : List OperationStep) (step : OperationStep) : Bool :=
  match step.dependsOn with
  | none => true
  | some deps => deps.all (depCompleted steps)

/-- Index scan of `getNextExecutableStep`: skip `completed`/`running` steps,
skip steps with unmet dependencies, return the first remaining index. -/
def findExecIdx (steps : List OperationStep) : List OperationStep → Nat → Option Nat
  | [], _ => none
  | s :: rest, i =>
    if s.status == StepStatus.completed ∨ s.status == StepStatus.running then
      findExecIdx steps rest (i + 1)
    else if stepDepsMet steps s then some i
    else findExecIdx steps rest (i + 1)

/-- `getNextExecutableStep`, returning the index of the step the source
returns (the source returns the step object itself; steps are mutated in
place there, so the index identifies it faithfully). -/
def getNextExecutableStep (plan : OperationPlan) : Option Nat :=
  findExecIdx plan.steps plan.steps 0

/-- `Object.keys(data)` enumeration together with the property reads
`data[key]`, for a truthy `data`: object members for objects, indexed
elements for arrays and strings, nothing for other primitives. -/
def dataEntries : Value → List (String × Value)
  | .vobj fs => fs
  | .varr xs => xs.enum.map (fun p => (toString p.1, p.2))
  | .vstr s => s.data.enum.map (fun p => (toString p.1, Value.vstr (String.mk [p.2])))
  | _ => []

/-- `updateOperationContext`: store the full result under the step's id, then
for `execute_query` and `execute_mutation` steps with a truthy `data` field,
copy every top-level key of the payload directly into the context.  (The
engine calls this only for a just-completed step, whose `result` is set; the
`getD` default is inert.) -/
def updateOperationContext (plan : OperationPlan) (step : OperationStep) : OperationPlan :=
  let result := step.result.getD Value.vnull
  let ctx1 := ctxSet plan.context step.id result
  let ctx2 :=
    if step.toolName = "execute_query" then
      match getField result "data" with
      | some d =>
          if truthy d then
            (dataEntries d).foldl (fun c p => ctxSet c p.1 p.2) ctx1
          else ctx1
      | none => ctx1
    else ctx1
  let ctx3 :=
    if step.toolName = "execute_mutation" then
      match getField result "data" with
      | some d =>
          if truthy d then
            (dataEntries d).foldl (fun c p => ctxSet c p.1 p.2) ctx2
          else ctx2
      | none => ctx2
    else ctx2
  { plan with context := ctx3 }

/-- `isOperationComplete`: every step `completed`. -/
def isOperationComplete (plan : OperationPlan) : Bool :=
  plan.steps.all (fun s => s.status == StepStatus.completed)

/-- `hasFailedSteps`: some step `failed`. -/
def hasFailedSteps (plan : OperationPlan) : Bool :=
  plan.steps.any (fun s => s.status == StepStatus.failed)

/-- The status update after `executeOperationPlan`'s loop exits with no
runnable step. -/
def finishPlan (plan : OperationPlan) : OperationPlan :=
  if isOperationComplete plan then { plan with status := .completed }
  else if hasFailedSteps plan then { plan with status := .failed }
  else plan

/-- Count of steps that are not `completed`; the drive loop's progress
measure. -/
def countNotCompleted (plan : OperationPlan) : Nat :=
  plan.steps.countP (fun s => !(s.status == StepStatus.completed))

/-- Fueled body of `executeOperationPlan`'s `while` loop, also recording the
indices of the steps executed (one entry per `executeStep` call, i.e. per
tool attempt).  Each iteration either returns or completes one more step, so
the loop runs at most `countNotCompleted plan + 1` iterations; with the fuel
`steps.length + 1` supplied by `executeOperationPlan` the `0` case is
unreachable (`driveLoopGo_fuel`). -/
def driveLoopGo (oracle : Oracle) : Nat → OperationPlan → List Nat → OperationPlan × List Nat
  | 0, plan, att => (plan, att)
  | fuel + 1, plan, att =>
    match getNextExecutableStep plan with
    | none => (finishPlan plan, att)
    | some i =>
      let res := executeStep oracle (plan.steps.getD i defaultStep) plan.context
      let plan2 : OperationPlan := { plan with steps := plan.steps.set i res.1 }
      if res.2 then
        driveLoopGo oracle fuel (updateOperationContext plan2 res.1) (att ++ [i])
      else if res.1.status == StepStatus.failed then
        ({ plan2 with status := PlanStatus.failed }, att ++ [i])
      else (plan2, att ++ [i])

/-- `executeOperationPlan` (the `drive` of the spec): set the plan
`executing`, loop the scheduler/executor to quiescence, then reconcile the
plan status.  Also returns the list of executed step indices of this call
(empty iff no tool attempt was made). -/
def executeOperationPlan (oracle : Oracle) (plan : OperationPlan) : OperationPlan × List Nat :=
  driveLoopGo oracle (plan.steps.length + 1) { plan with status := .executing } []

/-- Iterated drive cycles, cycle `n` using oracle `oracles n` (the external
world may answer differently on every attempt). -/
def driveSeq (oracles : Nat → Oracle) : Nat → OperationPlan → OperationPlan
  | 0, plan => plan
  | n + 1, plan => (executeOperationPlan (oracles n) (driveSeq oracles n plan)).1

/-- One requested tool call of a model turn (`toolCall.type`,
`toolCall.id`, `toolCall.function.name`, `toolCall.function.arguments`). -/
structure ToolCall where
  type : String
  id : String
  functionName : String
  functionArguments : String

/-- The step list built by `createOperationPlan`'s `map` + `filter`: one
`pending` step (with `retryCount = 0`, `maxRetries = 3`, no `dependsOn`) per
`function`-type tool call, parsing the JSON arguments; `none` models the
`JSON.parse` throw on malformed arguments, and non-function calls are
dropped by the filter. -/
def buildSteps : List ToolCall → Option (List OperationStep)
  | [] => some []
  | tc :: rest =>
    if tc.type = "function" then
      match jsonParse tc.functionArguments with
      | some params =>
          (buildSteps rest).map (fun steps =>
            ({ id := tc.id,
               toolName := tc.functionName,
               params := params,
               dependsOn := none,
               status := StepStatus.pending,
               result := none,
               error := none,
               retryCount := 0,
               maxRetries := 3 } : OperationStep) :: steps)
      | none => none
    else buildSteps rest

/-- `createOperationPlan`; the fresh uuid is a parameter. -/
def createOperationPlan (planId : String) (toolCalls : List ToolCall)
    (userMessage : String) : Option OperationPlan :=
  (buildSteps toolCalls).map (fun steps =>
    { id := planId, steps := steps, currentStepIndex := 0,
      status := .planning, context := [], userMessage := userMessage,
      response := none })

/-- Plans the engine actually produces: a freshly created plan, or the result
of driving a reachable plan with any oracle. -/
inductive Reachable : OperationPlan → Prop where
  | init (planId : String) (toolCalls : List ToolCall) (userMessage : String)
      (plan : OperationPlan) :
      createOperationPlan planId toolCalls userMessage = some plan → Reachable plan
  | drive (oracle : Oracle) (plan : OperationPlan) :
      Reachable plan → Reachable (executeOperationPlan oracle plan).1

/-- The combined selection test of the scheduler's loop body, read off the
code: not skipped (`completed`/`running`) and dependencies met. -/
def execP (steps : List OperationStep) (s : OperationStep) : Bool :=
  if s.status == StepStatus.completed ∨ s.status == StepStatus.running then false
  else stepDepsMet steps s

/-- Spec-side runnability, written from the spec's words: a step is skipped
when its status is `completed` or `running`; a step with `dependsOn` is
runnable only if every referenced step id exists in the plan and that step's
status is `completed`; a step without dependencies is runnable. -/
def specRunnable (steps : List OperationStep) (s : OperationStep) : Bool :=
  !(s.status == StepStatus.completed) && !(s.status == StepStatus.running) &&
    (match s.dependsOn with
     | none => true
     | some deps =>
         deps.all fun depId =>
           ((List.find? (fun t => t.id = depId) steps).map
             (fun t => t.status == StepStatus.completed)).getD false)

/-- Spec-side scheduler: the first step of the plan, in declaration order,
that is runnable; `none` when no step qualifies. -/
def schedulerSpec (plan : OperationPlan) : Option Nat :=
  List.findIdx? (specRunnable plan.steps) plan.steps

/-- The plan-status/step-status relationship asserted by the spec:
`completed` iff every step completed, `failed` iff some step failed. -/
def planStatusOk (p : OperationPlan) : Prop :=
  (p.status = PlanStatus.completed ↔ isOperationComplete p = true) ∧
  (p.status = PlanStatus.failed ↔ hasFailedSteps p = true)

/-- Invariant of engine-produced plans: every `failed` step has exhausted its
retries, and is the very step the scheduler selects next (in particular there
is at most one failed step, and no drive cycle can end quietly while a failed
step exists). -/
def PlanInv (p : OperationPlan) : Prop :=
  ∀ i, i < p.steps.length → (p.steps.getD i defaultStep).status = StepStatus.failed →
    (p.steps.getD i defaultStep).retryCount > (p.steps.getD i defaultStep).maxRetries ∧
    getNextExecutableStep p = some i

/-- A fresh `pending` step, as `createOperationPlan` builds them. -/
def freshStep (stepId toolName : String) (params : Value) : OperationStep :=
  { id := stepId, toolName := toolName, params := params, dependsOn := none,
    status := StepStatus.pending, result := none, error := none,
    retryCount := 0, maxRetries := 3 }

/-- A fresh plan around the given steps. -/
def freshPlan (steps : List OperationStep) : OperationPlan :=
  { id := "plan-1", steps := steps, currentStepIndex := 0,
    status := PlanStatus.planning, context := [], userMessage := "msg",
    response := none }

/-- An external world in which every tool call is rejected. -/
def alwaysFailOracle : Oracle := fun _ _ => Except.error "boom"

/-- An external world for the fail-fast scenario: mutations are rejected,
queries and introspections succeed with a `data` payload. -/
def failFastOracle : Oracle := fun toolName _ =>
  if toolName = "execute_mutation" then Except.error "mutation failed"
  else Except.ok (Value.vobj [("data", Value.vobj [("productId", Value.vstr "X")])])

/-- Three independent steps whose second step's tool permanently fails. -/
def failFastPlan : OperationPlan :=
  freshPlan [freshStep "s1" "execute_query" Value.vnull,
             freshStep "s2" "execute_mutation" Value.vnull,
             freshStep "s3" "execute_query" Value.vnull]

/-- A single step naming a tool the registry does not know. -/
def unknownToolPlan : OperationPlan :=
  freshPlan [freshStep "s1" "bogus_tool" Value.vnull]

/-- A single permanently failing step, driven to exhaustion: an
already-`failed` plan as the engine actually produces one. -/
def exhaustedPlan : OperationPlan :=
  driveSeq (fun _ => alwaysFailOracle) 4 (freshPlan [freshStep "s1" "execute_query" Value.vnull])

/-- A single `introspect_schema` step whose tool result carries a `data`
payload. -/
def introspectPlan : OperationPlan :=
  freshPlan [freshStep "s1" "introspect_schema" Value.vnull]

/-- The tool call used to build the witness plan for the status invariant. -/
def witnessToolCall : ToolCall :=
  { type := "function", id := "call_1", functionName := "execute_query",
    functionArguments := "\x7b\x7d" }

/-- The plan `createOperationPlan` builds from `witnessToolCall` (checked by
`rfl` where used). -/
def witnessPlan : OperationPlan :=
  { id := "p-1", steps := [freshStep "call_1" "execute_query" (Value.vobj [])],
    currentStepIndex := 0, status := PlanStatus.planning, context := [],
    userMessage := "msg", response := none }

theorem length_dropWhile_le (p : Char → Bool) :
    ∀ l : List Char, (l.dropWhile p).length ≤ l.length := by
  intro l
  induction l with
  | nil => simp [List.dropWhile]
  | cons c cs ih =>
    by_cases hc : p c
    · simp only [List.dropWhile, hc]
      exact Nat.le_trans ih (by simp)
    · simp [List.dropWhile, hc]

/-- A successful template match consumes the key and both closing braces. -/
theorem matchTemplateKey_length {cs key rest} (h : matchTemplateKey cs = some (key, rest)) :
    rest.length + 2 ≤ cs.length := by
  unfold matchTemplateKey at h
  have hlen : (cs.dropWhile (fun c => c ≠ '\x7d')).length ≤ cs.length :=
    length_dropWhile_le _ _
  revert h
  cases hdrop : cs.dropWhile (fun c => c ≠ '\x7d') with
  | nil => intro h; simp at h
  | cons c1 tl1 =>
    cases tl1 with
    | nil =>
      intro h
      by_cases hc : c1 = '\x7d' <;> simp [hc] at h
    | cons c2 tl2 =>
      intro h
      by_cases hc : c1 = '\x7d'
      · by_cases hc2 : c2 = '\x7d'
        · subst hc; subst hc2
          simp only at h
          split at h
          · exact absurd h (by simp)
          · simp only [Option.some.injEq, Prod.mk.injEq] at h
            obtain ⟨hk, hr⟩ := h
            subst hr
            rw [hdrop] at hlen
            simp only [List.length_cons] at hlen
            omega
        · simp [hc, hc2] at h
      · simp [hc] at h

theorem find?_append_single_false {α : Type} (p : α → Bool) (x : α) (hx : p x = false) :
    ∀ l : List α, List.find? p (l ++ [x]) = List.find? p l := by
  intro l
  induction l with
  | nil => simp [List.find?, hx]
  | cons a as ih =>
    simp only [List.cons_append, List.find?]
    cases p a with
    | true => rfl
    | false => exact ih

theorem find?_mapSet_self (k : String) (v : Value) :
    ∀ ctx : List (String × Value), ctx.any (fun p => p.1 = k) = true →
      List.find? (fun p => p.1 = k)
        (ctx.map (fun p => if p.1 = k then (k, v) else p)) = some (k, v) := by
  intro ctx
  induction ctx with
  | nil => simp
  | cons a as ih =>
    intro hany
    by_cases ha : a.1 = k
    · simp [List.find?, ha]
    · simp only [List.any_cons, Bool.or_eq_true, decide_eq_true_eq] at hany
      simp only [List.map_cons, if_neg ha, List.find?, decide_eq_true_eq]
      simp only [ha, decide_False]
      exact ih (by
        rcases hany with h1 | h2
        · exact absurd h1 ha
        · exact h2)

theorem find?_mapSet_ne (k k' : String) (v : Value) (h : k' ≠ k) :
    ∀ ctx : List (String × Value),
      List.find? (fun p => p.1 = k')
        (ctx.map (fun p => if p.1 = k then (k, v) else p))
        = List.find? (fun p => p.1 = k') ctx := by
  intro ctx
  induction ctx with
  | nil => rfl
  | cons a as ih =>
    by_cases ha : a.1 = k
    · have hk : (decide ((k, v).1 = k')) = false := by
        simp only [decide_eq_false_iff_not]
        exact fun e => h e.symm
      have ha' : (decide (a.1 = k')) = false := by
        simp only [decide_eq_false_iff_not]
        intro e; exact h (by rw [← e, ha])
      simp only [List.map_cons, if_pos ha, List.find?, hk, ha']
      exact ih
    · simp only [List.map_cons, if_neg ha, List.find?]
      cases hd : (decide (a.1 = k')) with
      | true => rfl
      | false => exact ih

theorem ctxLookup_ctxSet_self (ctx : Context) (k : String) (v : Value) :
    ctxLookup (ctxSet ctx k v) k = some v := by
  unfold ctxSet
  by_cases hany : List.any ctx (fun p => p.1 = k) = true
  · rw [if_pos hany]
    unfold ctxLookup
    rw [find?_mapSet_self k v ctx hany]
    rfl
  · rw [if_neg hany]
    unfold ctxLookup
    have hgen : ∀ l : List (String × Value), l.any (fun p => p.1 = k) = false →
        List.find? (fun p => p.1 = k) (l ++ [(k, v)]) = some (k, v) := by
      intro l
      induction l with
      | nil => simp [List.find?]
      | cons a as ih =>
        intro hl
        simp only [List.any_cons, Bool.or_eq_false_iff] at hl
        simp only [List.cons_append, List.find?, hl.1]
        exact ih hl.2
    rw [show List.append ctx [(k, v)] = ctx ++ [(k, v)] from rfl,
        hgen ctx (Bool.eq_false_iff.mpr hany)]
    rfl

theorem ctxLookup_ctxSet_ne (ctx : Context) (k k' : String) (v : Value) (h : k' ≠ k) :
    ctxLookup (ctxSet ctx k v) k' = ctxLookup ctx k' := by
  unfold ctxSet
  by_cases hany : List.any ctx (fun p => p.1 = k) = true
  · rw [if_pos hany]
    unfold ctxLookup
    rw [find?_mapSet_ne k k' v h ctx]
  · rw [if_neg hany]
    unfold ctxLookup
    have hk : (decide ((k, v).1 = k')) = false := by
      simp only [decide_eq_false_iff_not]
      exact fun e => h e.symm
    rw [show List.append ctx [(k, v)] = ctx ++ [(k, v)] from rfl,
        find?_append_single_false (fun p => decide (p.1 = k')) (k, v) hk ctx]

theorem getD_set_self {α : Type} (l : List α) (i : Nat) (a d : α) (h : i < l.length) :
    (l.set i a).getD i d = a := by
  rw [List.getD_eq_getElem?_getD, List.getElem?_set_self h]
  rfl

theorem getD_set_ne {α : Type} (l : List α) (i j : Nat) (a d : α) (h : i ≠ j) :
    (l.set i a).getD j d = l.getD j d := by
  rw [List.getD_eq_getElem?_getD, List.getElem?_set_ne h, ← List.getD_eq_getElem?_getD]

/-- Unfolding of the selection test when the step is selectable. -/
theorem execP_true_iff (all : List OperationStep) (s : OperationStep) :
    execP all s = true ↔
      s.status ≠ StepStatus.completed ∧ s.status ≠ StepStatus.running ∧
        stepDepsMet all s = true := by
  unfold execP
  by_cases hskip : ((s.status == StepStatus.completed) = true ∨ (s.status == StepStatus.running) = true)
  · rw [if_pos hskip]
    constructor
    · intro h; exact absurd h (by simp)
    · rintro ⟨h1, h2, _⟩
      rcases hskip with h | h
      · exact absurd (by simpa using h) h1
      · exact absurd (by simpa using h) h2
  · rw [if_neg hskip]
    push_neg at hskip
    constructor
    · intro h
      exact ⟨by simpa using hskip.1, by simpa using hskip.2, h⟩
    · intro h
      exact h.2.2

/-- Characterization of `findExecIdx` returning `none`. -/
theorem findExecIdx_none_iff (all : List OperationStep) :
    ∀ (l : List OperationStep) (n : Nat),
      findExecIdx all l n = none ↔
        ∀ k, k < l.length → execP all (l.getD k defaultStep) = false := by
  intro l
  induction l with
  | nil => intro n; simp [findExecIdx]
  | cons a rest ih =>
    intro n
    by_cases hskip : ((a.status == StepStatus.completed) = true ∨ (a.status == StepStatus.running) = true)
    · have hPa : execP all a = false := by unfold execP; rw [if_pos hskip]
      simp only [findExecIdx, if_pos hskip]
      rw [ih (n + 1)]
      constructor
      · intro h k hk
        cases k with
        | zero => simpa using hPa
        | succ k' =>
          simp only [List.getD_cons_succ]
          exact h k' (by simpa using hk)
      · intro h k hk
        have := h (k + 1) (by simp only [List.length_cons]; omega)
        simpa using this
    · by_cases hdeps : stepDepsMet all a = true
      · have hPa : execP all a = true := by unfold execP; rw [if_neg hskip]; exact hdeps
        simp only [findExecIdx, if_neg hskip, if_pos hdeps]
        constructor
        · intro h; exact absurd h (by simp)
        · intro h
          have := h 0 (by simp)
          rw [List.getD_cons_zero] at this
          rw [hPa] at this
          exact absurd this (by simp)
      · have hPa : execP all a = false := by
          unfold execP
          rw [if_neg hskip]
          exact Bool.eq_false_iff.mpr hdeps
        simp only [findExecIdx, if_neg hskip, if_neg hdeps]
        rw [ih (n + 1)]
        constructor
        · intro h k hk
          cases k with
          | zero => simpa using hPa
          | succ k' =>
            simp only [List.getD_cons_succ]
            exact h k' (by simpa using hk)
        · intro h k hk
          have := h (k + 1) (by simp only [List.length_cons]; omega)
          simpa using this

/-- Characterization of `findExecIdx` returning an index: the first
selectable step, offset by the running index. -/
theorem findExecIdx_some_iff (all : List OperationStep) :
    ∀ (l : List OperationStep) (n : Nat) (j : Nat),
      findExecIdx all l n = some j ↔
        ∃ k, k < l.length ∧ j = n + k ∧ execP all (l.getD k defaultStep) = true ∧
          ∀ m, m < k → execP all (l.getD m defaultStep) = false := by
  intro l
  induction l with
  | nil => intro n j; simp [findExecIdx]
  | cons a rest ih =>
    intro n j
    by_cases hskip : ((a.status == StepStatus.completed) = true ∨ (a.status == StepStatus.running) = true)
    · have hPa : execP all a = false := by unfold execP; rw [if_pos hskip]
      simp only [findExecIdx, if_pos hskip]
      rw [ih (n + 1) j]
      constructor
      · rintro ⟨k, hk, hj, hP, hfirst⟩
        refine ⟨k + 1, by simp only [List.length_cons]; omega, by omega, by simpa using hP, ?_⟩
        intro m hm
        cases m with
        | zero => simpa using hPa
        | succ m' =>
          simp only [List.getD_cons_succ]
          exact hfirst m' (by omega)
      · rintro ⟨k, hk, hj, hP, hfirst⟩
        cases k with
        | zero =>
          rw [List.getD_cons_zero] at hP
          rw [hPa] at hP
          exact absurd hP (by simp)
        | succ k' =>
          refine ⟨k', by simp only [List.length_cons] at hk; omega, by omega,
            by simpa using hP, ?_⟩
          intro m hm
          have := hfirst (m + 1) (by omega)
          simpa using this
    · by_cases hdeps : stepDepsMet all a = true
      · have hPa : execP all a = true := by unfold execP; rw [if_neg hskip]; exact hdeps
        simp only [findExecIdx, if_neg hskip, if_pos hdeps]
        constructor
        · intro h
          have hj : j = n := by
            have := h
            simp only [Option.some.injEq] at this
            omega
          exact ⟨0, by simp, by omega, by simpa using hPa, by intro m hm; omega⟩
        · rintro ⟨k, hk, hj, hP, hfirst⟩
          cases k with
          | zero => simp only [Option.some.injEq]; omega
          | succ k' =>
            have := hfirst 0 (by omega)
            rw [List.getD_cons_zero] at this
            rw [hPa] at this
            exact absurd this (by simp)
      · have hPa : execP all a = false := by
          unfold execP
          rw [if_neg hskip]
          exact Bool.eq_false_iff.mpr hdeps
        simp only [findExecIdx, if_neg hskip, if_neg hdeps]
        rw [ih (n + 1) j]
        constructor
        · rintro ⟨k, hk, hj, hP, hfirst⟩
          refine ⟨k + 1, by simp only [List.length_cons]; omega, by omega, by simpa using hP, ?_⟩
          intro m hm
          cases m with
          | zero => simpa using hPa
          | succ m' =>
            simp only [List.getD_cons_succ]
            exact hfirst m' (by omega)
        · rintro ⟨k, hk, hj, hP, hfirst⟩
          cases k with
          | zero =>
            rw [List.getD_cons_zero] at hP
            rw [hPa] at hP
            exact absurd hP (by simp)
          | succ k' =>
            refine ⟨k', by simp only [List.length_cons] at hk; omega, by omega,
              by simpa using hP, ?_⟩
            intro m hm
            have := hfirst (m + 1) (by omega)
            simpa using this

/-- The scheduler returns `none` exactly when no step is selectable. -/
theorem getNextExecutableStep_none_iff (p : OperationPlan) :
    getNextExecutableStep p = none ↔
      ∀ k, k < p.steps.length → execP p.steps (p.steps.getD k defaultStep) = false := by
  unfold getNextExecutableStep
  exact findExecIdx_none_iff p.steps p.steps 0

/-- The scheduler returns `some i` exactly when `i` is the first selectable
index. -/
theorem getNextExecutableStep_some_iff (p : OperationPlan) (i : Nat) :
    getNextExecutableStep p = some i ↔
      i < p.steps.length ∧ execP p.steps (p.steps.getD i defaultStep) = true ∧
        ∀ m, m < i → execP p.steps (p.steps.getD m defaultStep) = false := by
  unfold getNextExecutableStep
  rw [findExecIdx_some_iff p.steps p.steps 0 i]
  constructor
  · rintro ⟨k, hk, hj, hP, hfirst⟩
    exact ⟨by omega, by rw [show i = k by omega]; exact hP,
      fun m hm => hfirst m (by omega)⟩
  · rintro ⟨hi, hP, hfirst⟩
    exact ⟨i, hi, by omega, hP, hfirst⟩

/-- Replacing a step with one of the same id and the same completedness does
not change any dependency lookup. -/
theorem depCompleted_set (a : OperationStep) :
    ∀ (l : List OperationStep) (i : Nat),
      (l.getD i defaultStep).id = a.id →
      ((l.getD i defaultStep).status == StepStatus.completed)
        = (a.status == StepStatus.completed) →
      ∀ depId, depCompleted (l.set i a) depId = depCompleted l depId := by
  intro l
  induction l with
  | nil => intro i _ _ depId; rfl
  | cons x rest ih =>
    intro i hid hst depId
    cases i with
    | zero =>
      rw [List.getD_cons_zero] at hid hst
      simp only [List.set_cons_zero]
      unfold depCompleted
      simp only [List.find?]
      rw [hid]
      cases hd : (decide (a.id = depId)) with
      | true => simp only [hst]
      | false => rfl
    | succ i' =>
      rw [List.getD_cons_succ] at hid hst
      simp only [List.set_cons_succ]
      unfold depCompleted
      simp only [List.find?]
      cases hd : (decide (x.id = depId)) with
      | true => rfl
      | false =>
        have := ih i' hid hst depId
        unfold depCompleted at this
        exact this

/-- `stepDepsMet` only reads the candidate's `dependsOn` list. -/
theorem stepDepsMet_congr (all : List OperationStep) (s t : OperationStep)
    (h : s.dependsOn = t.dependsOn) : stepDepsMet all s = stepDepsMet all t := by
  unfold stepDepsMet
  rw [h]

/-- `stepDepsMet` is stable under replacing a step with one of the same id
and completedness. -/
theorem stepDepsMet_set (l : List OperationStep) (i : Nat) (a : OperationStep)
    (hid : (l.getD i defaultStep).id = a.id)
    (hst : ((l.getD i defaultStep).status == StepStatus.completed)
      = (a.status == StepStatus.completed))
    (t : OperationStep) : stepDepsMet (l.set i a) t = stepDepsMet l t := by
  unfold stepDepsMet
  cases t.dependsOn with
  | none => rfl
  | some deps =>
    simp only
    exact congrArg deps.all (funext fun depId => depCompleted_set a l i hid hst depId)

/-- The selection test is stable under replacing a step with one of the same
id and completedness (for candidates other than the replaced one, whose own
fields are untouched). -/
theorem execP_set (l : List OperationStep) (i : Nat) (a : OperationStep)
    (hid : (l.getD i defaultStep).id = a.id)
    (hst : ((l.getD i defaultStep).status == StepStatus.completed)
      = (a.status == StepStatus.completed))
    (t : OperationStep) : execP (l.set i a) t = execP l t := by
  unfold execP
  rw [stepDepsMet_set l i a hid hst t]

/-- Scheduler stability: after executing the selected step `i`, if the
updated step keeps its id and dependencies and is neither `completed` nor
`running`, the scheduler selects `i` again. -/
theorem sched_some_set (p : OperationPlan) (i : Nat) (a : OperationStep)
    (h : getNextExecutableStep p = some i)
    (hid : (p.steps.getD i defaultStep).id = a.id)
    (hdep : (p.steps.getD i defaultStep).dependsOn = a.dependsOn)
    (hnc : a.status ≠ StepStatus.completed) (hnr : a.status ≠ StepStatus.running)
    (q : OperationPlan) (hq : q.steps = p.steps.set i a) :
    getNextExecutableStep q = some i := by
  rw [getNextExecutableStep_some_iff] at h
  obtain ⟨hi, hP, hfirst⟩ := h
  rw [execP_true_iff] at hP
  obtain ⟨holdc, holdr, hdeps⟩ := hP
  have hst : ((p.steps.getD i defaultStep).status == StepStatus.completed)
      = (a.status == StepStatus.completed) := by
    have h1 : ((p.steps.getD i defaultStep).status == StepStatus.completed) = false := by
      simpa using holdc
    have h2 : (a.status == StepStatus.completed) = false := by simpa using hnc
    rw [h1, h2]
  rw [getNextExecutableStep_some_iff]
  refine ⟨by rw [hq, List.length_set]; exact hi, ?_, ?_⟩
  · have hgd : q.steps.getD i defaultStep = a := by
      rw [hq]; exact getD_set_self p.steps i a defaultStep hi
    rw [hgd, execP_true_iff]
    refine ⟨hnc, hnr, ?_⟩
    rw [hq, stepDepsMet_set p.steps i a hid hst a]
    rw [stepDepsMet_congr p.steps a (p.steps.getD i defaultStep) hdep.symm]
    exact hdeps
  · intro m hm
    have hgd : q.steps.getD m defaultStep = p.steps.getD m defaultStep := by
      rw [hq]; exact getD_set_ne p.steps i m a defaultStep (by omega)
    rw [hgd, hq, execP_set p.steps i a hid hst]
    exact hfirst m hm

/-- Setting a counted-out element strictly decreases `countP`. -/
theorem countP_set_lt {α : Type} (p : α → Bool) (l : List α) (i : Nat) (a d : α)
    (h : i < l.length) (hold : p (l.getD i d) = true) (hnew : p a = false) :
    (l.set i a).countP p < l.countP p := by
  have hg : l.getD i d = l[i] := by
    rw [List.getD_eq_getElem?_getD, List.getElem?_eq_getElem h]
    rfl
  rw [List.countP_set p l i a h, hg.symm, hold, hnew]
  have hpos : 0 < l.countP p := by
    have : l.getD i d ∈ l := by
      rw [hg]
      exact List.getElem_mem h
    calc 0 < 1 := Nat.one_pos
    _ ≤ l.countP p := List.countP_pos_iff.mpr ⟨l.getD i d, this, hold⟩
  simp only [show (true = true) = True from by simp, show (false = true) = False from by simp,
    if_true, if_false]
  omega

theorem updateOperationContext_steps (p : OperationPlan) (s : OperationStep) :
    (updateOperationContext p s).steps = p.steps := rfl

theorem updateOperationContext_status (p : OperationPlan) (s : OperationStep) :
    (updateOperationContext p s).status = p.status := rfl

/-- `executeStep` on a successful tool run. -/
theorem executeStep_ok (oracle : Oracle) (step : OperationStep) (ctx : Context) (r : Value)
    (h : runTool oracle step.toolName step.params ctx = Except.ok r) :
    executeStep oracle step ctx
      = ({ step with status := StepStatus.completed, result := some r }, true) := by
  unfold executeStep
  simp only
  rw [h]

/-- `executeStep` on a thrown error with retries exhausted. -/
theorem executeStep_err_terminal (oracle : Oracle) (step : OperationStep) (ctx : Context)
    (e : String) (h : runTool oracle step.toolName step.params ctx = Except.error e)
    (hrc : step.retryCount + 1 > step.maxRetries) :
    executeStep oracle step ctx
      = ({ step with
             status := StepStatus.failed,
             retryCount := step.retryCount + 1,
             error := some e }, false) := by
  unfold executeStep
  simp only
  rw [h]
  simp only [if_pos hrc]

/-- `executeStep` on a thrown error with retries remaining. -/
theorem executeStep_err_retry (oracle : Oracle) (step : OperationStep) (ctx : Context)
    (e : String) (h : runTool oracle step.toolName step.params ctx = Except.error e)
    (hrc : ¬(step.retryCount + 1 > step.maxRetries)) :
    executeStep oracle step ctx
      = ({ step with
             status := StepStatus.pending,
             retryCount := step.retryCount + 1,
             error := some (annotError (step.retryCount + 1) step.maxRetries e) }, false) := by
  unfold executeStep
  simp only
  rw [h]
  simp only [if_neg hrc]

/-- `executeStep` never changes the step's identity fields. -/
theorem executeStep_preserves (oracle : Oracle) (step : OperationStep) (ctx : Context) :
    (executeStep oracle step ctx).1.id = step.id ∧
    (executeStep oracle step ctx).1.toolName = step.toolName ∧
    (executeStep oracle step ctx).1.params = step.params ∧
    (executeStep oracle step ctx).1.dependsOn = step.dependsOn ∧
    (executeStep oracle step ctx).1.maxRetries = step.maxRetries := by
  cases h : runTool oracle step.toolName step.params ctx with
  | ok r => rw [executeStep_ok oracle step ctx r h]; exact ⟨rfl, rfl, rfl, rfl, rfl⟩
  | error e =>
    by_cases hrc : step.retryCount + 1 > step.maxRetries
    · rw [executeStep_err_terminal oracle step ctx e h hrc]; exact ⟨rfl, rfl, rfl, rfl, rfl⟩
    · rw [executeStep_err_retry oracle step ctx e h hrc]; exact ⟨rfl, rfl, rfl, rfl, rfl⟩

/-- The three possible outcomes of `executeStep`. -/
theorem executeStep_cases (oracle : Oracle) (step : OperationStep) (ctx : Context) :
    ((executeStep oracle step ctx).2 = true ∧
      (executeStep oracle step ctx).1.status = StepStatus.completed) ∨
    ((executeStep oracle step ctx).2 = false ∧
      (executeStep oracle step ctx).1.status = StepStatus.failed ∧
      (executeStep oracle step ctx).1.retryCount = step.retryCount + 1 ∧
      (executeStep oracle step ctx).1.retryCount > step.maxRetries) ∨
    ((executeStep oracle step ctx).2 = false ∧
      (executeStep oracle step ctx).1.status = StepStatus.pending ∧
      (executeStep oracle step ctx).1.retryCount = step.retryCount + 1 ∧
      (executeStep oracle step ctx).1.retryCount ≤ step.maxRetries) := by
  cases h : runTool oracle step.toolName step.params ctx with
  | ok r =>
    left
    rw [executeStep_ok oracle step ctx r h]
    exact ⟨rfl, rfl⟩
  | error e =>
    by_cases hrc : step.retryCount + 1 > step.maxRetries
    · right; left
      rw [executeStep_err_terminal oracle step ctx e h hrc]
      exact ⟨rfl, rfl, rfl, by simpa using hrc⟩
    · right; right
      rw [executeStep_err_retry oracle step ctx e h hrc]
      exact ⟨rfl, rfl, rfl, by show step.retryCount + 1 ≤ step.maxRetries; omega⟩

/-- The drive loop never changes the number of steps. -/
theorem driveLoopGo_length (oracle : Oracle) :
    ∀ (fuel : Nat) (plan : OperationPlan) (att : List Nat),
      (driveLoopGo oracle fuel plan att).1.steps.length = plan.steps.length := by
  intro fuel
  induction fuel with
  | zero => intro plan att; rfl
  | succ fuel ih =>
    intro plan att
    cases hsched : getNextExecutableStep plan with
    | none =>
      simp only [driveLoopGo, hsched]
      unfold finishPlan
      by_cases h1 : isOperationComplete plan = true
      · rw [if_pos h1]
      · rw [if_neg h1]
        by_cases h2 : hasFailedSteps plan = true
        · rw [if_pos h2]
        · rw [if_neg h2]
    | some i =>
      simp only [driveLoopGo, hsched]
      cases hok : (executeStep oracle (plan.steps.getD i defaultStep) plan.context).2 with
      | true =>
        simp only [hok, if_true]
        rw [ih]
        simp [updateOperationContext_steps, List.length_set]
      | false =>
        simp only [hok, Bool.false_eq_true, if_false]
        cases hfs : ((executeStep oracle (plan.steps.getD i defaultStep) plan.context).1.status
            == StepStatus.failed) with
        | true => simp only [hfs, if_true, List.length_set]
        | false => simp only [hfs, Bool.false_eq_true, if_false, List.length_set]

/-- One successful iteration strictly decreases the number of steps not yet
completed. -/
theorem countNC_after_success (oracle : Oracle) (plan : OperationPlan) (i : Nat)
    (hsched : getNextExecutableStep plan = some i)
    (hok : (executeStep oracle (plan.steps.getD i defaultStep) plan.context).2 = true) :
    countNotCompleted (updateOperationContext
      { plan with
          steps := plan.steps.set i
            (executeStep oracle (plan.steps.getD i defaultStep) plan.context).1 }
      (executeStep oracle (plan.steps.getD i defaultStep) plan.context).1)
      < countNotCompleted plan := by
  rw [getNextExecutableStep_some_iff] at hsched
  obtain ⟨hi, hP, _⟩ := hsched
  rw [execP_true_iff] at hP
  obtain ⟨hnc, _, _⟩ := hP
  have hst : (executeStep oracle (plan.steps.getD i defaultStep) plan.context).1.status
      = StepStatus.completed := by
    rcases executeStep_cases oracle (plan.steps.getD i defaultStep) plan.context with
      ⟨_, h⟩ | ⟨hf, _⟩ | ⟨hf, _⟩
    · exact h
    · rw [hok] at hf; exact absurd hf (by simp)
    · rw [hok] at hf; exact absurd hf (by simp)
  unfold countNotCompleted
  rw [updateOperationContext_steps]
  simp only
  apply countP_set_lt _ plan.steps i _ defaultStep hi
  · simp only [Bool.not_eq_true']
    simpa using hnc
  · rw [hst]
    simp

/-- Any two sufficient fuels drive identically: the loop is fuel-independent
once the fuel exceeds the number of incomplete steps. -/
theorem driveLoopGo_fuel (oracle : Oracle) :
    ∀ (f1 : Nat), ∀ (f2 : Nat) (plan : OperationPlan) (att : List Nat),
      countNotCompleted plan < f1 → countNotCompleted plan < f2 →
      driveLoopGo oracle f1 plan att = driveLoopGo oracle f2 plan att := by
  intro f1
  induction f1 using Nat.strong_induction_on with
  | _ f1 ih =>
    intro f2 plan att h1 h2
    match f1, f2 with
    | 0, _ => omega
    | _, 0 => omega
    | g1 + 1, g2 + 1 =>
      cases hsched : getNextExecutableStep plan with
      | none => simp only [driveLoopGo, hsched]
      | some i =>
        simp only [driveLoopGo, hsched]
        cases hok : (executeStep oracle (plan.steps.getD i defaultStep) plan.context).2 with
        | true =>
          simp only [hok, if_true]
          have hdec := countNC_after_success oracle plan i hsched hok
          exact ih g1 (by omega) g2 _ _ (by omega) (by omega)
        | false =>
          simp only [hok, Bool.false_eq_true, if_false]

theorem getD_eq_getElem {α : Type} (l : List α) (i : Nat) (d : α) (h : i < l.length) :
    l.getD i d = l[i] := by
  rw [List.getD_eq_getElem?_getD, List.getElem?_eq_getElem h]
  rfl

/-- `isOperationComplete` in terms of indexed steps. -/
theorem isOperationComplete_iff (p : OperationPlan) :
    isOperationComplete p = true ↔
      ∀ i, i < p.steps.length → (p.steps.getD i defaultStep).status = StepStatus.completed := by
  unfold isOperationComplete
  rw [List.all_eq_true]
  constructor
  · intro h i hi
    have hm : p.steps.getD i defaultStep ∈ p.steps := by
      rw [getD_eq_getElem p.steps i defaultStep hi]
      exact List.getElem_mem hi
    simpa using h _ hm
  · intro h x hx
    rw [List.mem_iff_getElem] at hx
    obtain ⟨n, hn, rfl⟩ := hx
    have := h n hn
    rw [getD_eq_getElem p.steps n defaultStep hn] at this
    simpa using this

/-- `hasFailedSteps` in terms of indexed steps. -/
theorem hasFailedSteps_iff (p : OperationPlan) :
    hasFailedSteps p = true ↔
      ∃ i, i < p.steps.length ∧ (p.steps.getD i defaultStep).status = StepStatus.failed := by
  unfold hasFailedSteps
  rw [List.any_eq_true]
  constructor
  · rintro ⟨x, hx, hfail⟩
    rw [List.mem_iff_getElem] at hx
    obtain ⟨n, hn, rfl⟩ := hx
    refine ⟨n, hn, ?_⟩
    rw [getD_eq_getElem p.steps n defaultStep hn]
    simpa using hfail
  · rintro ⟨i, hi, hfail⟩
    refine ⟨p.steps.getD i defaultStep, ?_, by simpa using hfail⟩
    rw [getD_eq_getElem p.steps i defaultStep hi]
    exact List.getElem_mem hi

theorem finishPlan_steps (p : OperationPlan) : (finishPlan p).steps = p.steps := by
  unfold finishPlan
  by_cases h1 : isOperationComplete p = true
  · rw [if_pos h1]
  · rw [if_neg h1]
    by_cases h2 : hasFailedSteps p = true
    · rw [if_pos h2]
    · rw [if_neg h2]

/-- Loop unfolding: no runnable step. -/
theorem driveLoopGo_succ_none (oracle : Oracle) (fuel : Nat) (plan : OperationPlan)
    (att : List Nat) (h : getNextExecutableStep plan = none) :
    driveLoopGo oracle (fuel + 1) plan att = (finishPlan plan, att) := by
  simp only [driveLoopGo, h]

/-- Loop unfolding: the selected step succeeds and the loop continues. -/
theorem driveLoopGo_succ_ok (oracle : Oracle) (fuel : Nat) (plan : OperationPlan)
    (att : List Nat) (i : Nat) (h : getNextExecutableStep plan = some i)
    (hok : (executeStep oracle (plan.steps.getD i defaultStep) plan.context).2 = true) :
    driveLoopGo oracle (fuel + 1) plan att
      = driveLoopGo oracle fuel
          (updateOperationContext
            { plan with
                steps := plan.steps.set i
                  (executeStep oracle (plan.steps.getD i defaultStep) plan.context).1 }
            (executeStep oracle (plan.steps.getD i defaultStep) plan.context).1)
          (att ++ [i]) := by
  simp only [driveLoopGo, h, hok, if_true]

/-- Loop unfolding: the selected step throws and is terminally failed. -/
theorem driveLoopGo_succ_fail (oracle : Oracle) (fuel : Nat) (plan : OperationPlan)
    (att : List Nat) (i : Nat) (h : getNextExecutableStep plan = some i)
    (hok : (executeStep oracle (plan.steps.getD i defaultStep) plan.context).2 = false)
    (hfs : (executeStep oracle (plan.steps.getD i defaultStep) plan.context).1.status
      = StepStatus.failed) :
    driveLoopGo oracle (fuel + 1) plan att
      = ({ plan with
             steps := plan.steps.set i
               (executeStep oracle (plan.steps.getD i defaultStep) plan.context).1,
             status := PlanStatus.failed }, att ++ [i]) := by
  simp only [driveLoopGo, h, hok, Bool.false_eq_true, if_false, hfs]
  simp

/-- Loop unfolding: the selected step throws but remains retryable. -/
theorem driveLoopGo_succ_retry (oracle : Oracle) (fuel : Nat) (plan : OperationPlan)
    (att : List Nat) (i : Nat) (h : getNextExecutableStep plan = some i)
    (hok : (executeStep oracle (plan.steps.getD i defaultStep) plan.context).2 = false)
    (hfs : (executeStep oracle (plan.steps.getD i defaultStep) plan.context).1.status
      ≠ StepStatus.failed) :
    driveLoopGo oracle (fuel + 1) plan att
      = ({ plan with
             steps := plan.steps.set i
               (executeStep oracle (plan.steps.getD i defaultStep) plan.context).1 },
         att ++ [i]) := by
  have hfs' : ((executeStep oracle (plan.steps.getD i defaultStep) plan.context).1.status
      == StepStatus.failed) = false := by simpa using hfs
  simp only [driveLoopGo, h, hok, Bool.false_eq_true, if_false, hfs']

/-- A fully completed plan has no failed step. -/
theorem complete_no_failed (p : OperationPlan) (hC : isOperationComplete p = true) :
    hasFailedSteps p = false := by
  rw [Bool.eq_false_iff]
  intro hF
  rw [hasFailedSteps_iff] at hF
  obtain ⟨i, hi, hfail⟩ := hF
  have := (isOperationComplete_iff p).mp hC i hi
  rw [this] at hfail
  exact StepStatus.noConfusion hfail

/-- Post-condition of the drive loop: starting from any `executing` plan
satisfying the engine invariant, the loop returns a plan whose status agrees
with its steps (`completed` iff all steps completed, `failed` iff some step
failed), preserves the invariant, and ends in one of the three engine
statuses. -/
theorem driveLoop_post (oracle : Oracle) :
    ∀ (fuel : Nat) (plan : OperationPlan) (att : List Nat),
      countNotCompleted plan < fuel →
      plan.status = PlanStatus.executing →
      PlanInv plan →
      planStatusOk (driveLoopGo oracle fuel plan att).1 ∧
      PlanInv (driveLoopGo oracle fuel plan att).1 ∧
      ((driveLoopGo oracle fuel plan att).1.status = PlanStatus.completed ∨
       (driveLoopGo oracle fuel plan att).1.status = PlanStatus.failed ∨
       (driveLoopGo oracle fuel plan att).1.status = PlanStatus.executing) := by
  intro fuel
  induction fuel with
  | zero => intro plan att h _ _; omega
  | succ fuel ih =>
    intro plan att hfuel hstatus hinv
    cases hsched : getNextExecutableStep plan with
    | none =>
      rw [driveLoopGo_succ_none oracle fuel plan att hsched]
      by_cases hC : isOperationComplete plan = true
      · have hfp : finishPlan plan = { plan with status := PlanStatus.completed } := by
          unfold finishPlan; rw [if_pos hC]
        rw [hfp]
        have hNF : hasFailedSteps plan = false := complete_no_failed plan hC
        refine ⟨⟨iff_of_true rfl hC, iff_of_false (by simp) ?_⟩, ?_, Or.inl rfl⟩
        · show ¬(hasFailedSteps { plan with status := PlanStatus.completed } = true)
          show ¬(hasFailedSteps plan = true)
          rw [hNF]; simp
        · intro i hi hfail
          exfalso
          have := (isOperationComplete_iff plan).mp hC i hi
          exact StepStatus.noConfusion (this ▸ hfail)
      · by_cases hF : hasFailedSteps plan = true
        · exfalso
          rw [hasFailedSteps_iff] at hF
          obtain ⟨i, hi, hfail⟩ := hF
          have := (hinv i hi hfail).2
          rw [hsched] at this
          exact Option.noConfusion this
        · have hfp : finishPlan plan = plan := by
            unfold finishPlan; rw [if_neg hC, if_neg hF]
          rw [hfp]
          refine ⟨⟨iff_of_false (by rw [hstatus]; simp) hC,
            iff_of_false (by rw [hstatus]; simp) hF⟩, ?_, Or.inr (Or.inr hstatus)⟩
          intro i hi hfail
          exact absurd (hasFailedSteps_iff plan |>.mpr ⟨i, hi, hfail⟩) hF
    | some i =>
      obtain ⟨hi, hP, hfirst⟩ := (getNextExecutableStep_some_iff plan i).mp hsched
      obtain ⟨hnc, hnr, hdeps⟩ := (execP_true_iff _ _).mp hP
      obtain ⟨hpid, hptn, hppa, hpdep, hpmax⟩ :=
        executeStep_preserves oracle (plan.steps.getD i defaultStep) plan.context
      rcases executeStep_cases oracle (plan.steps.getD i defaultStep) plan.context with
        ⟨hok, hcomp⟩ | ⟨hok, hfail, hrc, hgt⟩ | ⟨hok, hpend, hrc, hle⟩
      · -- success: loop continues
        rw [driveLoopGo_succ_ok oracle fuel plan att i hsched hok]
        apply ih
        · have := countNC_after_success oracle plan i hsched hok
          omega
        · exact hstatus
        · intro j hj hfailj
          exfalso
          rw [updateOperationContext_steps] at hj hfailj
          simp only [List.length_set] at hj
          by_cases hij : j = i
          · subst hij
            rw [getD_set_self plan.steps j _ defaultStep hj] at hfailj
            rw [hcomp] at hfailj
            exact StepStatus.noConfusion hfailj
          · rw [getD_set_ne plan.steps i j _ defaultStep (fun e => hij e.symm)] at hfailj
            have := (hinv j hj hfailj).2
            rw [hsched] at this
            exact hij (Option.some.injEq _ _ ▸ this).symm
      · -- terminal failure: loop stops, plan failed
        rw [driveLoopGo_succ_fail oracle fuel plan att i hsched hok hfail]
        refine ⟨⟨iff_of_false (by simp) ?_, iff_of_true rfl ?_⟩, ?_, Or.inr (Or.inl rfl)⟩
        · intro hcmp
          rw [isOperationComplete_iff] at hcmp
          have := hcmp i (by simpa [List.length_set] using hi)
          rw [getD_set_self plan.steps i _ defaultStep hi] at this
          rw [hfail] at this
          exact StepStatus.noConfusion this
        · rw [hasFailedSteps_iff]
          refine ⟨i, by simpa [List.length_set] using hi, ?_⟩
          rw [getD_set_self plan.steps i _ defaultStep hi]
          exact hfail
        · intro j hj hfailj
          simp only [List.length_set] at hj
          by_cases hij : j = i
          · subst hij
            constructor
            · rw [getD_set_self plan.steps j _ defaultStep hj]
              rw [hpmax, hrc]
              rw [hrc] at hgt
              exact hgt
            · apply sched_some_set plan j _ hsched hpid.symm hpdep.symm
              · rw [hfail]; simp
              · rw [hfail]; simp
              · rfl
          · have hfailj' : (plan.steps.getD j defaultStep).status = StepStatus.failed := by
              rw [← getD_set_ne plan.steps i j _ defaultStep (fun e => hij e.symm)]
              exact hfailj
            have := (hinv j hj hfailj').2
            rw [hsched] at this
            exact absurd (Option.some.injEq _ _ ▸ this).symm hij
      · -- retryable failure: loop stops, plan still executing
        rw [driveLoopGo_succ_retry oracle fuel plan att i hsched hok (by rw [hpend]; simp)]
        have hnofail : ∀ j, j < plan.steps.length →
            ((plan.steps.set i
              (executeStep oracle (plan.steps.getD i defaultStep) plan.context).1).getD j
                defaultStep).status = StepStatus.failed → False := by
          intro j hj hfailj
          by_cases hij : j = i
          · subst hij
            rw [getD_set_self plan.steps j _ defaultStep hj] at hfailj
            rw [hpend] at hfailj
            exact StepStatus.noConfusion hfailj
          · rw [getD_set_ne plan.steps i j _ defaultStep (fun e => hij e.symm)] at hfailj
            have := (hinv j hj hfailj).2
            rw [hsched] at this
            exact hij (Option.some.injEq _ _ ▸ this).symm
        refine ⟨⟨iff_of_false
            (fun h => by rw [hstatus] at h; exact PlanStatus.noConfusion h) ?_,
          iff_of_false
            (fun h => by rw [hstatus] at h; exact PlanStatus.noConfusion h) ?_⟩,
          ?_, Or.inr (Or.inr hstatus)⟩
        · intro hcmp
          rw [isOperationComplete_iff] at hcmp
          have := hcmp i (by simpa [List.length_set] using hi)
          rw [getD_set_self plan.steps i _ defaultStep hi] at this
          rw [hpend] at this
          exact StepStatus.noConfusion this
        · intro hF
          rw [hasFailedSteps_iff] at hF
          obtain ⟨j, hj, hfailj⟩ := hF
          simp only [List.length_set] at hj
          exact hnofail j hj hfailj
        · intro j hj hfailj
          exact absurd hfailj (by
            simp only [List.length_set] at hj
            intro hfailj
            exact hnofail j hj hfailj)

theorem finishPlan_context (p : OperationPlan) : (finishPlan p).context = p.context := by
  unfold finishPlan
  by_cases h1 : isOperationComplete p = true
  · rw [if_pos h1]
  · rw [if_neg h1]
    by_cases h2 : hasFailedSteps p = true
    · rw [if_pos h2]
    · rw [if_neg h2]

/-- A bound context key stays bound across a single write. -/
theorem ctxLookup_isSome_ctxSet (ctx : Context) (k k2 : String) (v2 : Value)
    (h : (ctxLookup ctx k).isSome = true) :
    (ctxLookup (ctxSet ctx k2 v2) k).isSome = true := by
  by_cases hk : k = k2
  · subst hk
    rw [ctxLookup_ctxSet_self]
    rfl
  · rw [ctxLookup_ctxSet_ne ctx k2 k v2 hk]
    exact h

/-- A bound context key stays bound across a fold of writes. -/
theorem ctxLookup_isSome_foldl (k : String) :
    ∀ (entries : List (String × Value)) (ctx : Context),
      (ctxLookup ctx k).isSome = true →
      (ctxLookup (entries.foldl (fun c p => ctxSet c p.1 p.2) ctx) k).isSome = true := by
  intro entries
  induction entries with
  | nil => intro ctx h; exact h
  | cons e rest ih =>
    intro ctx h
    exact ih (ctxSet ctx e.1 e.2) (ctxLookup_isSome_ctxSet ctx k e.1 e.2 h)

/-- The context fold never removes keys. -/
theorem updateOperationContext_mono (p : OperationPlan) (s : OperationStep) (k : String)
    (h : (ctxLookup p.context k).isSome = true) :
    (ctxLookup (updateOperationContext p s).context k).isSome = true := by
  unfold updateOperationContext
  simp only
  have h1 : (ctxLookup (ctxSet p.context s.id (s.result.getD Value.vnull)) k).isSome = true :=
    ctxLookup_isSome_ctxSet p.context k s.id _ h
  by_cases hq : s.toolName = "execute_query"
  · rw [if_pos hq]
    by_cases hm : s.toolName = "execute_mutation"
    · exact absurd (hq ▸ hm) (by decide)
    · rw [if_neg hm]
      cases getField (s.result.getD Value.vnull) "data" with
      | none => exact h1
      | some d =>
        simp only
        split
        · exact ctxLookup_isSome_foldl k _ _ h1
        · exact h1
  · rw [if_neg hq]
    by_cases hm : s.toolName = "execute_mutation"
    · rw [if_pos hm]
      cases getField (s.result.getD Value.vnull) "data" with
      | none => exact h1
      | some d =>
        simp only
        split
        · exact ctxLookup_isSome_foldl k _ _ h1
        · exact h1
    · rw [if_neg hm]
      exact h1

/-- Bound context keys survive the whole drive loop. -/
theorem driveLoopGo_context_mono (oracle : Oracle) :
    ∀ (fuel : Nat) (plan : OperationPlan) (att : List Nat) (k : String),
      (ctxLookup plan.context k).isSome = true →
      (ctxLookup (driveLoopGo oracle fuel plan att).1.context k).isSome = true := by
  intro fuel
  induction fuel with
  | zero => intro plan att k h; exact h
  | succ fuel ih =>
    intro plan att k h
    cases hsched : getNextExecutableStep plan with
    | none =>
      rw [driveLoopGo_succ_none oracle fuel plan att hsched]
      simp only [finishPlan_context]
      exact h
    | some i =>
      cases hok : (executeStep oracle (plan.steps.getD i defaultStep) plan.context).2 with
      | true =>
        rw [driveLoopGo_succ_ok oracle fuel plan att i hsched hok]
        exact ih _ _ k (updateOperationContext_mono _ _ k h)
      | false =>
        by_cases hfs : (executeStep oracle (plan.steps.getD i defaultStep) plan.context).1.status
            = StepStatus.failed
        · rw [driveLoopGo_succ_fail oracle fuel plan att i hsched hok hfs]
          exact h
        · rw [driveLoopGo_succ_retry oracle fuel plan att i hsched hok hfs]
          exact h

/-- `drive` post-condition at the `executeOperationPlan` level. -/
theorem drive_post (oracle : Oracle) (plan : OperationPlan) (hinv : PlanInv plan) :
    planStatusOk (executeOperationPlan oracle plan).1 ∧
    PlanInv (executeOperationPlan oracle plan).1 ∧
    ((executeOperationPlan oracle plan).1.status = PlanStatus.completed ∨
     (executeOperationPlan oracle plan).1.status = PlanStatus.failed ∨
     (executeOperationPlan oracle plan).1.status = PlanStatus.executing) := by
  unfold executeOperationPlan
  apply driveLoop_post oracle (plan.steps.length + 1) { plan with status := PlanStatus.executing } []
  · show countNotCompleted plan < plan.steps.length + 1
    unfold countNotCompleted
    have := List.countP_le_length (l := plan.steps)
      (p := fun s => !(s.status == StepStatus.completed))
    omega
  · rfl
  · exact hinv

/-- Every step a successful `buildSteps` produces is `pending`. -/
theorem buildSteps_pending :
    ∀ (tcs : List ToolCall) (steps : List OperationStep), buildSteps tcs = some steps →
      ∀ s ∈ steps, s.status = StepStatus.pending := by
  intro tcs
  induction tcs with
  | nil =>
    intro steps h
    simp only [buildSteps, Option.some.injEq] at h
    subst h
    intro s hs
    exact absurd hs (List.not_mem_nil s)
  | cons tc rest ih =>
    intro steps h
    by_cases htype : tc.type = "function"
    · simp only [buildSteps, if_pos htype] at h
      cases hp : jsonParse tc.functionArguments with
      | none => rw [hp] at h; exact Option.noConfusion h
      | some params =>
        rw [hp] at h
        cases hb : buildSteps rest with
        | none => rw [hb] at h; exact Option.noConfusion h
        | some steps' =>
          rw [hb] at h
          simp only [Option.map_some', Option.some.injEq] at h
          subst h
          intro s hs
          rcases List.mem_cons.mp hs with hhead | htail
          · rw [hhead]
          · exact ih steps' hb s htail
    · simp only [buildSteps, if_neg htype] at h
      exact ih steps h

/-- Engine-produced plans satisfy the invariant. -/
theorem reachable_inv (p : OperationPlan) (h : Reachable p) : PlanInv p := by
  induction h with
  | init planId toolCalls userMessage plan hcreate =>
    unfold createOperationPlan at hcreate
    cases hb : buildSteps toolCalls with
    | none => rw [hb] at hcreate; exact Option.noConfusion hcreate
    | some steps =>
      rw [hb] at hcreate
      simp only [Option.map_some', Option.some.injEq] at hcreate
      subst hcreate
      intro i hi hfail
      exfalso
      have hm : steps.getD i defaultStep ∈ steps := by
        rw [getD_eq_getElem steps i defaultStep hi]
        exact List.getElem_mem hi
      have := buildSteps_pending toolCalls steps hb _ hm
      rw [this] at hfail
      exact StepStatus.noConfusion hfail
  | drive oracle plan _ ih =>
    exact (drive_post oracle plan ih).2.1

/-- `findExecIdx` is the first-index search for the selection test. -/
theorem findExecIdx_eq_findIdx (all : List OperationStep) :
    ∀ (l : List OperationStep) (n : Nat),
      findExecIdx all l n = List.findIdx? (execP all) l n := by
  intro l
  induction l with
  | nil => intro n; rfl
  | cons a rest ih =>
    intro n
    rw [List.findIdx?_cons]
    by_cases hskip : ((a.status == StepStatus.completed) = true ∨ (a.status == StepStatus.running) = true)
    · have hPa : execP all a = false := by unfold execP; rw [if_pos hskip]
      simp only [findExecIdx, if_pos hskip, hPa, Bool.false_eq_true, if_false]
      exact ih (n + 1)
    · by_cases hdeps : stepDepsMet all a = true
      · have hPa : execP all a = true := by unfold execP; rw [if_neg hskip]; exact hdeps
        simp only [findExecIdx, if_neg hskip, if_pos hdeps, hPa, if_true]
      · have hPa : execP all a = false := by
          unfold execP
          rw [if_neg hskip]
          exact Bool.eq_false_iff.mpr hdeps
        simp only [findExecIdx, if_neg hskip, if_neg hdeps, hPa, Bool.false_eq_true, if_false]
        exact ih (n + 1)

/-- The spec's wording of runnability agrees with the code's selection test. -/
theorem specRunnable_eq_execP (all : List OperationStep) (s : OperationStep) :
    specRunnable all s = execP all s := by
  unfold specRunnable execP stepDepsMet
  cases hc : (s.status == StepStatus.completed) with
  | true => simp [hc]
  | false =>
    cases hr : (s.status == StepStatus.running) with
    | true => simp [hc, hr]
    | false =>
      simp only [hc, hr, Bool.not_false, Bool.true_and]
      rw [if_neg (by simp [hc, hr])]
      cases hdep : s.dependsOn with
      | none => rfl
      | some deps =>
        simp only
        apply congrArg deps.all
        funext depId
        unfold depCompleted
        cases List.find? (fun t => t.id = depId) all with
        | none => rfl
        | some depStep => rfl

/-- C8 (confirmed).  Scheduler selection: `getNextExecutableStep` computes
exactly the spec-side scheduler — it scans the steps in declaration order,
skips every step whose status is `completed` or `running`, treats a step with
`dependsOn` as runnable only if every referenced id resolves to a plan step
with status `completed` (a step with an incomplete or missing dependency is
skipped, i.e. it waits rather than fails), and returns the first runnable
step, or `none` when no step qualifies. -/
theorem getNextExecutableStep_refines_spec (plan : OperationPlan) :
    getNextExecutableStep plan = schedulerSpec plan := by
  unfold getNextExecutableStep schedulerSpec
  rw [findExecIdx_eq_findIdx plan.steps plan.steps 0]
  have : specRunnable plan.steps = execP plan.steps :=
    funext fun s => specRunnable_eq_execP plan.steps s
  rw [this]

/-- C10 (confirmed).  Driving a plan with an empty steps list performs no
tool invocation (empty attempt list), leaves every field including the
context unchanged, and returns the plan with status `completed` (the
all-steps-completed check is vacuously true). -/
theorem empty_plan_drive (oracle : Oracle) (plan : OperationPlan)
    (h : plan.steps = []) :
    executeOperationPlan oracle plan
      = ({ plan with status := PlanStatus.completed }, []) := by
  unfold executeOperationPlan
  have hnone : getNextExecutableStep { plan with status := PlanStatus.executing } = none := by
    rw [getNextExecutableStep_none_iff]
    intro k hk
    exfalso
    have : ({ plan with status := PlanStatus.executing }).steps = plan.steps := rfl
    rw [this, h] at hk
    simp at hk
  rw [driveLoopGo_succ_none oracle plan.steps.length _ [] hnone]
  have hC : isOperationComplete { plan with status := PlanStatus.executing } = true := by
    unfold isOperationComplete
    show plan.steps.all _ = true
    rw [h]
    rfl
  unfold finishPlan
  rw [if_pos hC]

/-- C10 witness: the empty fresh plan drives to `completed` with no attempts. -/
theorem empty_plan_drive_witness :
    executeOperationPlan alwaysFailOracle (freshPlan [])
      = ({ freshPlan [] with status := PlanStatus.completed }, []) :=
  empty_plan_drive alwaysFailOracle (freshPlan []) rfl

/-- C9 (confirmed).  Plan status invariant: for every engine-produced
(reachable) plan, after a drive cycle the plan's status is `completed` iff
every step is `completed`, and `failed` iff at least one step is `failed`;
when neither holds the plan is left in `executing`.  Moreover no context
binding is ever dropped by a drive cycle, so a completed step's result (under
its id, and its copied payload keys) stays in the context even when the plan
later fails. -/
theorem drive_status_invariant (oracle : Oracle) (plan : OperationPlan)
    (h : Reachable plan) :
    ((executeOperationPlan oracle plan).1.status = PlanStatus.completed ↔
      isOperationComplete (executeOperationPlan oracle plan).1 = true) ∧
    ((executeOperationPlan oracle plan).1.status = PlanStatus.failed ↔
      hasFailedSteps (executeOperationPlan oracle plan).1 = true) ∧
    (isOperationComplete (executeOperationPlan oracle plan).1 = false →
      hasFailedSteps (executeOperationPlan oracle plan).1 = false →
      (executeOperationPlan oracle plan).1.status = PlanStatus.executing) ∧
    (∀ k, (ctxLookup plan.context k).isSome = true →
      (ctxLookup (executeOperationPlan oracle plan).1.context k).isSome = true) := by
  have hinv := reachable_inv plan h
  obtain ⟨⟨h1, h2⟩, _, h3⟩ := drive_post oracle plan hinv
  refine ⟨h1, h2, ?_, ?_⟩
  · intro hc hf
    rcases h3 with hs | hs | hs
    · exact absurd (h1.mp hs) (by rw [hc]; simp)
    · exact absurd (h2.mp hs) (by rw [hf]; simp)
    · exact hs
  · intro k hk
    unfold executeOperationPlan
    exact driveLoopGo_context_mono oracle _ _ _ k hk

/-- C9 witness: the invariant instantiated on a concrete freshly created
plan driven with a failing oracle. -/
theorem drive_status_invariant_witness :
    ((executeOperationPlan alwaysFailOracle witnessPlan).1.status = PlanStatus.completed ↔
      isOperationComplete (executeOperationPlan alwaysFailOracle witnessPlan).1 = true) ∧
    ((executeOperationPlan alwaysFailOracle witnessPlan).1.status = PlanStatus.failed ↔
      hasFailedSteps (executeOperationPlan alwaysFailOracle witnessPlan).1 = true) :=
  ⟨(drive_status_invariant alwaysFailOracle witnessPlan
      (Reachable.init "p-1" [witnessToolCall] "msg" witnessPlan rfl)).1,
   (drive_status_invariant alwaysFailOracle witnessPlan
      (Reachable.init "p-1" [witnessToolCall] "msg" witnessPlan rfl)).2.1⟩

/-- C3 counterexample: driving an already-`failed` plan is NOT a no-op.
`exhaustedPlan` is a plan the engine itself produced (a single permanently
failing step driven to exhaustion, status `failed`, `retryCount = 4`); driving
it again executes the failed step once more (attempt list `[0]`, `retryCount`
becomes 5), because the scheduler only skips `completed` and `running` steps —
so the result differs from `(plan, no attempts)`. -/
theorem drive_failed_plan_not_noop :
    exhaustedPlan.status = PlanStatus.failed ∧
    (exhaustedPlan.steps.getD 0 defaultStep).retryCount = 4 ∧
    (executeOperationPlan alwaysFailOracle exhaustedPlan).2 = [0] ∧
    ((executeOperationPlan alwaysFailOracle exhaustedPlan).1.steps.getD 0
      defaultStep).retryCount = 5 ∧
    executeOperationPlan alwaysFailOracle exhaustedPlan ≠ (exhaustedPlan, []) := by
  refine ⟨rfl, rfl, rfl, rfl, ?_⟩
  intro h
  have h2 := congrArg Prod.snd h
  rw [show (executeOperationPlan alwaysFailOracle exhaustedPlan).2 = [0] from rfl] at h2
  exact List.noConfusion h2

/-- C3 (corrected).  Idempotence holds for `completed` plans only: driving an
already-`completed` plan (status `completed`, every step `completed`) returns
the plan unchanged with an empty attempt list, i.e. no tool invocation; an
already-`failed` plan, by the counterexample, has its failed step re-selected
and re-executed. -/
theorem drive_completed_noop (oracle : Oracle) (plan : OperationPlan)
    (hs : plan.status = PlanStatus.completed)
    (hall : isOperationComplete plan = true) :
    executeOperationPlan oracle plan = (plan, []) := by
  unfold executeOperationPlan
  have hnone : getNextExecutableStep { plan with status := PlanStatus.executing } = none := by
    rw [getNextExecutableStep_none_iff]
    intro k hk
    show execP plan.steps (plan.steps.getD k defaultStep) = false
    have hcomp := (isOperationComplete_iff plan).mp hall k hk
    unfold execP
    rw [if_pos (Or.inl (by rw [hcomp]; rfl))]
  rw [driveLoopGo_succ_none oracle plan.steps.length _ [] hnone]
  unfold finishPlan
  rw [if_pos (show isOperationComplete { plan with status := PlanStatus.executing } = true
    from hall)]
  rw [show ({ plan with status := PlanStatus.completed } : OperationPlan) = plan from by
    rw [← hs]]

/-- C3 witness: driving the one-step plan to completion and then driving the
completed plan again changes nothing and attempts nothing. -/
theorem drive_completed_noop_witness :
    executeOperationPlan failFastOracle
        (driveSeq (fun _ => failFastOracle) 1 introspectPlan)
      = (driveSeq (fun _ => failFastOracle) 1 introspectPlan, []) :=
  drive_completed_noop failFastOracle _ rfl rfl

/-- C4 counterexample: `failed` is not terminal per-step.  In the
engine-produced `exhaustedPlan` the single step has status `failed`, yet a
further drive cycle selects and executes it again (attempt list `[0]`, so it
re-enters `running` inside `executeStep`, and its `retryCount` grows to 5). -/
theorem failed_step_reruns :
    (exhaustedPlan.steps.getD 0 defaultStep).status = StepStatus.failed ∧
    (executeOperationPlan alwaysFailOracle exhaustedPlan).2 = [0] ∧
    ((executeOperationPlan alwaysFailOracle exhaustedPlan).1.steps.getD 0
      defaultStep).retryCount = 5 :=
  ⟨rfl, rfl, rfl⟩

/-- A `completed` step is untouched by the drive loop and never attempted. -/
theorem driveLoopGo_preserves_completed (oracle : Oracle) :
    ∀ (fuel : Nat) (plan : OperationPlan) (att : List Nat) (i : Nat),
      i < plan.steps.length →
      (plan.steps.getD i defaultStep).status = StepStatus.completed →
      i ∉ att →
      (driveLoopGo oracle fuel plan att).1.steps.getD i defaultStep
        = plan.steps.getD i defaultStep ∧
      i ∉ (driveLoopGo oracle fuel plan att).2 := by
  intro fuel
  induction fuel with
  | zero => intro plan att i _ _ hatt; exact ⟨rfl, hatt⟩
  | succ fuel ih =>
    intro plan att i hi hc hatt
    cases hsched : getNextExecutableStep plan with
    | none =>
      rw [driveLoopGo_succ_none oracle fuel plan att hsched]
      rw [finishPlan_steps]
      exact ⟨rfl, hatt⟩
    | some j =>
      have hji : j ≠ i := by
        intro e
        subst e
        obtain ⟨_, hP, _⟩ := (getNextExecutableStep_some_iff plan j).mp hsched
        obtain ⟨hnc, _, _⟩ := (execP_true_iff _ _).mp hP
        exact hnc hc
      have hatt2 : i ∉ att ++ [j] := by
        intro hmem
        rcases List.mem_append.mp hmem with hmem | hmem
        · exact hatt hmem
        · exact hji (List.mem_singleton.mp hmem).symm
      cases hok : (executeStep oracle (plan.steps.getD j defaultStep) plan.context).2 with
      | true =>
        rw [driveLoopGo_succ_ok oracle fuel plan att j hsched hok]
        have hstep : ((updateOperationContext
            { plan with
                steps := plan.steps.set j
                  (executeStep oracle (plan.steps.getD j defaultStep) plan.context).1 }
            (executeStep oracle (plan.steps.getD j defaultStep) plan.context).1).steps.getD i
              defaultStep) = plan.steps.getD i defaultStep := by
          rw [updateOperationContext_steps]
          exact getD_set_ne plan.steps j i _ defaultStep hji
        have hlen : i < (updateOperationContext
            { plan with
                steps := plan.steps.set j
                  (executeStep oracle (plan.steps.getD j defaultStep) plan.context).1 }
            (executeStep oracle (plan.steps.getD j defaultStep) plan.context).1).steps.length := by
          rw [updateOperationContext_steps]
          simpa [List.length_set] using hi
        obtain ⟨hkeep, hnoatt⟩ := ih _ (att ++ [j]) i hlen (by rw [hstep]; exact hc) hatt2
        exact ⟨by rw [hkeep, hstep], hnoatt⟩
      | false =>
        by_cases hfs : (executeStep oracle (plan.steps.getD j defaultStep) plan.context).1.status
            = StepStatus.failed
        · rw [driveLoopGo_succ_fail oracle fuel plan att j hsched hok hfs]
          exact ⟨getD_set_ne plan.steps j i _ defaultStep hji, hatt2⟩
        · rw [driveLoopGo_succ_retry oracle fuel plan att j hsched hok hfs]
          exact ⟨getD_set_ne plan.steps j i _ defaultStep hji, hatt2⟩

/-- A drive cycle preserves the number of steps. -/
theorem executeOperationPlan_length (oracle : Oracle) (plan : OperationPlan) :
    (executeOperationPlan oracle plan).1.steps.length = plan.steps.length := by
  unfold executeOperationPlan
  exact driveLoopGo_length oracle (plan.steps.length + 1) _ []

/-- C4 (corrected).  `completed` is terminal per-step: across any sequence of
drive cycles (with arbitrary per-cycle oracles) a step that is `completed`
stays exactly as it is, and its index never appears in any cycle's attempt
list (so it never re-enters `running`).  `failed`, however, is NOT terminal:
by the counterexample, a failed step is re-selected by a later drive cycle
and re-enters `running`, because the scheduler only skips `completed` and
`running` steps. -/
theorem completed_step_terminal (oracles : Nat → Oracle) (plan : OperationPlan) (i : Nat)
    (hi : i < plan.steps.length)
    (hc : (plan.steps.getD i defaultStep).status = StepStatus.completed) :
    ∀ n, (driveSeq oracles n plan).steps.getD i defaultStep
          = plan.steps.getD i defaultStep ∧
      i ∉ (executeOperationPlan (oracles n) (driveSeq oracles n plan)).2 := by
  have hmain : ∀ n, (driveSeq oracles n plan).steps.getD i defaultStep
      = plan.steps.getD i defaultStep ∧
      i < (driveSeq oracles n plan).steps.length := by
    intro n
    induction n with
    | zero => exact ⟨rfl, hi⟩
    | succ n ihn =>
      obtain ⟨hkeep, hlen⟩ := ihn
      have hc' : ((driveSeq oracles n plan).steps.getD i defaultStep).status
          = StepStatus.completed := by rw [hkeep]; exact hc
      have := driveLoopGo_preserves_completed (oracles n)
        ((driveSeq oracles n plan).steps.length + 1)
        { driveSeq oracles n plan with status := PlanStatus.executing } [] i hlen hc'
        (List.not_mem_nil i)
      constructor
      · show (executeOperationPlan (oracles n) (driveSeq oracles n plan)).1.steps.getD i
            defaultStep = plan.steps.getD i defaultStep
        unfold executeOperationPlan
        rw [this.1]
        exact hkeep
      · show i < (executeOperationPlan (oracles n) (driveSeq oracles n plan)).1.steps.length
        rw [executeOperationPlan_length]
        exact hlen
  intro n
  refine ⟨(hmain n).1, ?_⟩
  have hc' : ((driveSeq oracles n plan).steps.getD i defaultStep).status
      = StepStatus.completed := by rw [(hmain n).1]; exact hc
  have := driveLoopGo_preserves_completed (oracles n)
    ((driveSeq oracles n plan).steps.length + 1)
    { driveSeq oracles n plan with status := PlanStatus.executing } [] i (hmain n).2 hc'
    (List.not_mem_nil i)
  exact this.2

/-- C4 witness: after one fail-fast drive the first step is `completed`; it
is preserved and never re-attempted over three further drive cycles. -/
theorem completed_step_terminal_witness :
    ((driveSeq (fun _ => failFastOracle) 2
        (driveSeq (fun _ => failFastOracle) 1 failFastPlan)).steps.getD 0 defaultStep
      = (driveSeq (fun _ => failFastOracle) 1 failFastPlan).steps.getD 0 defaultStep) ∧
    0 ∉ (executeOperationPlan failFastOracle
      (driveSeq (fun _ => failFastOracle) 2
        (driveSeq (fun _ => failFastOracle) 1 failFastPlan))).2 :=
  completed_step_terminal (fun _ => failFastOracle)
    (driveSeq (fun _ => failFastOracle) 1 failFastPlan) 0 (by decide) rfl 2

/-- The scheduler on a one-step plan with a `pending`, dependency-free step
selects that step. -/
theorem sched_single_pending (plan : OperationPlan) (st : OperationStep)
    (hsteps : plan.steps = [st]) (hpend : st.status = StepStatus.pending)
    (hdep : st.dependsOn = none) :
    getNextExecutableStep { plan with status := PlanStatus.executing } = some 0 := by
  show findExecIdx plan.steps plan.steps 0 = some 0
  rw [hsteps]
  have hmet : stepDepsMet [st] st = true := by
    unfold stepDepsMet
    rw [hdep]
  simp only [findExecIdx]
  rw [if_neg (by simp [hpend]), if_pos hmet]

/-- One drive cycle on a one-step plan whose tool throws, retries remaining:
the step returns to `pending` with an incremented `retryCount` and the
annotated error, the plan stays `executing`, and exactly one attempt is
made. -/
theorem drive_single_fail_retry (oracle : Oracle) (plan : OperationPlan)
    (st : OperationStep) (e : String)
    (hsteps : plan.steps = [st]) (hpend : st.status = StepStatus.pending)
    (hdep : st.dependsOn = none)
    (hfail : runTool oracle st.toolName st.params plan.context = Except.error e)
    (hrc : ¬(st.retryCount + 1 > st.maxRetries)) :
    executeOperationPlan oracle plan
      = ({ plan with
             steps := [{ st with
                           status := StepStatus.pending,
                           retryCount := st.retryCount + 1,
                           error := some (annotError (st.retryCount + 1) st.maxRetries e) }],
             status := PlanStatus.executing }, [0]) := by
  unfold executeOperationPlan
  have hgd : ({ plan with status := PlanStatus.executing } : OperationPlan).steps.getD 0
      defaultStep = st := by
    show plan.steps.getD 0 defaultStep = st
    rw [hsteps]
    rfl
  have hsched := sched_single_pending plan st hsteps hpend hdep
  have hE : executeStep oracle
      (({ plan with status := PlanStatus.executing } : OperationPlan).steps.getD 0 defaultStep)
      ({ plan with status := PlanStatus.executing } : OperationPlan).context
      = ({ st with
             status := StepStatus.pending,
             retryCount := st.retryCount + 1,
             error := some (annotError (st.retryCount + 1) st.maxRetries e) }, false) := by
    rw [hgd]
    exact executeStep_err_retry oracle st plan.context e hfail hrc
  rw [driveLoopGo_succ_retry oracle plan.steps.length _ [] 0 hsched
    (by rw [hE]) (by rw [hE]; exact fun h => StepStatus.noConfusion h)]
  rw [hE]
  have hset : ({ plan with status := PlanStatus.executing } : OperationPlan).steps.set 0
      ({ st with
           status := StepStatus.pending,
           retryCount := st.retryCount + 1,
           error := some (annotError (st.retryCount + 1) st.maxRetries e) })
      = [{ st with
             status := StepStatus.pending,
             retryCount := st.retryCount + 1,
             error := some (annotError (st.retryCount + 1) st.maxRetries e) }] := by
    show plan.steps.set 0 _ = _
    rw [hsteps]
    rfl
  rw [hset]
  rfl

/-- One drive cycle on a one-step plan whose tool throws, retries exhausted:
the step becomes `failed` with the raw error, the plan becomes `failed`, and
exactly one attempt is made. -/
theorem drive_single_fail_terminal (oracle : Oracle) (plan : OperationPlan)
    (st : OperationStep) (e : String)
    (hsteps : plan.steps = [st]) (hpend : st.status = StepStatus.pending)
    (hdep : st.dependsOn = none)
    (hfail : runTool oracle st.toolName st.params plan.context = Except.error e)
    (hrc : st.retryCount + 1 > st.maxRetries) :
    executeOperationPlan oracle plan
      = ({ plan with
             steps := [{ st with
                           status := StepStatus.failed,
                           retryCount := st.retryCount + 1,
                           error := some e }],
             status := PlanStatus.failed }, [0]) := by
  unfold executeOperationPlan
  have hgd : ({ plan with status := PlanStatus.executing } : OperationPlan).steps.getD 0
      defaultStep = st := by
    show plan.steps.getD 0 defaultStep = st
    rw [hsteps]
    rfl
  have hsched := sched_single_pending plan st hsteps hpend hdep
  have hE : executeStep oracle
      (({ plan with status := PlanStatus.executing } : OperationPlan).steps.getD 0 defaultStep)
      ({ plan with status := PlanStatus.executing } : OperationPlan).context
      = ({ st with
             status := StepStatus.failed,
             retryCount := st.retryCount + 1,
             error := some e }, false) := by
    rw [hgd]
    exact executeStep_err_terminal oracle st plan.context e hfail hrc
  rw [driveLoopGo_succ_fail oracle plan.steps.length _ [] 0 hsched
    (by rw [hE]) (by rw [hE])]
  rw [hE]
  have hset : ({ plan with status := PlanStatus.executing } : OperationPlan).steps.set 0
      ({ st with
           status := StepStatus.failed,
           retryCount := st.retryCount + 1,
           error := some e })
      = [{ st with
             status := StepStatus.failed,
             retryCount := st.retryCount + 1,
             error := some e }] := by
    show plan.steps.set 0 _ = _
    rw [hsteps]
    rfl
  rw [hset]
  rfl

/-- Characterization of repeatedly driving a one-step plan whose tool throws
on every attempt: after `k` cycles (`1 ≤ k ≤ maxRetries`) the step is
`pending` with `retryCount = k` and the annotated error of attempt `k`; after
`maxRetries + 1` cycles the step and the plan are `failed` with the raw error
of the final attempt; and every one of these cycles makes exactly one
attempt. -/
theorem driveSeq_fail_char (f : Nat → Oracle) (e : Nat → String) (plan : OperationPlan)
    (st : OperationStep) (m : Nat)
    (hsteps : plan.steps = [st]) (hpend : st.status = StepStatus.pending)
    (hdep : st.dependsOn = none) (hrc : st.retryCount = 0) (hmax : st.maxRetries = m)
    (hfail : ∀ n, runTool (f n) st.toolName st.params plan.context = Except.error (e n)) :
    (∀ k, 1 ≤ k → k ≤ m → driveSeq f k plan
        = { plan with
              steps := [{ st with
                            status := StepStatus.pending,
                            retryCount := k,
                            error := some (annotError k m (e (k - 1))) }],
              status := PlanStatus.executing }) ∧
    (driveSeq f (m + 1) plan
        = { plan with
              steps := [{ st with
                            status := StepStatus.failed,
                            retryCount := m + 1,
                            error := some (e m) }],
              status := PlanStatus.failed }) ∧
    (∀ k, k ≤ m → (executeOperationPlan (f k) (driveSeq f k plan)).2 = [0]) := by
  have hpart1 : ∀ k, 1 ≤ k → k ≤ m → driveSeq f k plan
      = { plan with
            steps := [{ st with
                          status := StepStatus.pending,
                          retryCount := k,
                          error := some (annotError k m (e (k - 1))) }],
            status := PlanStatus.executing } := by
    intro k
    induction k with
    | zero => intro h1 _; omega
    | succ k ihk =>
      intro _ hk1
      by_cases hk0 : k = 0
      · subst hk0
        show (executeOperationPlan (f 0) (driveSeq f 0 plan)).1 = _
        rw [show driveSeq f 0 plan = plan from rfl]
        rw [drive_single_fail_retry (f 0) plan st (e 0) hsteps hpend hdep (hfail 0)
          (by omega)]
        show ({ plan with
                  steps := [{ st with
                                status := StepStatus.pending,
                                retryCount := st.retryCount + 1,
                                error := some (annotError (st.retryCount + 1) st.maxRetries
                                  (e 0)) }],
                  status := PlanStatus.executing } : OperationPlan) = _
        rw [hrc, hmax]
      · have hk : 1 ≤ k := by omega
        have hplank := ihk hk (by omega)
        show (executeOperationPlan (f k) (driveSeq f k plan)).1 = _
        rw [hplank]
        rw [drive_single_fail_retry (f k)
          { plan with
              steps := [{ st with
                            status := StepStatus.pending,
                            retryCount := k,
                            error := some (annotError k m (e (k - 1))) }],
              status := PlanStatus.executing }
          { st with
              status := StepStatus.pending,
              retryCount := k,
              error := some (annotError k m (e (k - 1))) }
          (e k) rfl rfl hdep (hfail k) (by show ¬(k + 1 > st.maxRetries); omega)]
        show ({ plan with
                  steps := [{ st with
                                status := StepStatus.pending,
                                retryCount := k + 1,
                                error := some (annotError (k + 1) st.maxRetries (e k)) }],
                  status := PlanStatus.executing } : OperationPlan) = _
        rw [hmax]
        simp
  have hpart2 : driveSeq f (m + 1) plan
      = { plan with
            steps := [{ st with
                          status := StepStatus.failed,
                          retryCount := m + 1,
                          error := some (e m) }],
            status := PlanStatus.failed } := by
    by_cases hm0 : m = 0
    · subst hm0
      show (executeOperationPlan (f 0) (driveSeq f 0 plan)).1 = _
      rw [show driveSeq f 0 plan = plan from rfl]
      rw [drive_single_fail_terminal (f 0) plan st (e 0) hsteps hpend hdep (hfail 0)
        (by omega)]
      show ({ plan with
                steps := [{ st with
                              status := StepStatus.failed,
                              retryCount := st.retryCount + 1,
                              error := some (e 0) }],
                status := PlanStatus.failed } : OperationPlan) = _
      rw [hrc]
    · have hplanm := hpart1 m (by omega) (by omega)
      show (executeOperationPlan (f m) (driveSeq f m plan)).1 = _
      rw [hplanm]
      rw [drive_single_fail_terminal (f m)
        { plan with
            steps := [{ st with
                          status := StepStatus.pending,
                          retryCount := m,
                          error := some (annotError m m (e (m - 1))) }],
            status := PlanStatus.executing }
        { st with
            status := StepStatus.pending,
            retryCount := m,
            error := some (annotError m m (e (m - 1))) }
        (e m) rfl rfl hdep (hfail m) (by show m + 1 > st.maxRetries; omega)]
  have hpart3 : ∀ k, k ≤ m → (executeOperationPlan (f k) (driveSeq f k plan)).2 = [0] := by
    intro k hk
    by_cases hterm : k + 1 > m
    · -- the final attempt of the last cycle (k = m)
      have hkm : k = m := by omega
      subst hkm
      by_cases hk0 : k = 0
      · subst hk0
        rw [show driveSeq f 0 plan = plan from rfl]
        rw [drive_single_fail_terminal (f 0) plan st (e 0) hsteps hpend hdep (hfail 0)
          (by omega)]
      · rw [hpart1 k (by omega) (by omega)]
        rw [drive_single_fail_terminal (f k)
          { plan with
              steps := [{ st with
                            status := StepStatus.pending,
                            retryCount := k,
                            error := some (annotError k k (e (k - 1))) }],
              status := PlanStatus.executing }
          { st with
              status := StepStatus.pending,
              retryCount := k,
              error := some (annotError k k (e (k - 1))) }
          (e k) rfl rfl hdep (hfail k) (by show k + 1 > st.maxRetries; omega)]
    · by_cases hk0 : k = 0
      · subst hk0
        rw [show driveSeq f 0 plan = plan from rfl]
        rw [drive_single_fail_retry (f 0) plan st (e 0) hsteps hpend hdep (hfail 0)
          (by omega)]
      · rw [hpart1 k (by omega) (by omega)]
        rw [drive_single_fail_retry (f k)
          { plan with
              steps := [{ st with
                            status := StepStatus.pending,
                            retryCount := k,
                            error := some (annotError k m (e (k - 1))) }],
              status := PlanStatus.executing }
          { st with
              status := StepStatus.pending,
              retryCount := k,
              error := some (annotError k m (e (k - 1))) }
          (e k) rfl rfl hdep (hfail k) (by show ¬(k + 1 > st.maxRetries); omega)]
  exact ⟨hpart1, hpart2, hpart3⟩

/-- C1 (confirmed).  Retry bound: a (dependency-free, fresh) step whose tool
invocation throws on every attempt reaches `failed` after exactly
`maxRetries + 1` total attempts, never fewer and never more: after `k ≤
maxRetries` drive cycles the step is still `pending` with `retryCount = k`
(one attempt per cycle, attempt list `[0]`), each non-final failure records
the error annotated with the attempt count, and cycle `maxRetries + 1` makes
the final attempt, setting the step (and plan) to `failed`. -/
theorem retry_bound (f : Nat → Oracle) (e : Nat → String) (plan : OperationPlan)
    (st : OperationStep) (m : Nat)
    (hsteps : plan.steps = [st]) (hpend : st.status = StepStatus.pending)
    (hdep : st.dependsOn = none) (hrc : st.retryCount = 0) (hmax : st.maxRetries = m)
    (hplan : plan.status ≠ PlanStatus.failed)
    (hfail : ∀ n, runTool (f n) st.toolName st.params plan.context = Except.error (e n)) :
    (∀ k, k ≤ m →
      ((driveSeq f k plan).steps.getD 0 defaultStep).status = StepStatus.pending ∧
      ((driveSeq f k plan).steps.getD 0 defaultStep).retryCount = k ∧
      (driveSeq f k plan).status ≠ PlanStatus.failed) ∧
    (((driveSeq f (m + 1) plan).steps.getD 0 defaultStep).status = StepStatus.failed ∧
      ((driveSeq f (m + 1) plan).steps.getD 0 defaultStep).retryCount = m + 1 ∧
      (driveSeq f (m + 1) plan).status = PlanStatus.failed) ∧
    (∀ k, k ≤ m → (executeOperationPlan (f k) (driveSeq f k plan)).2 = [0]) ∧
    (∀ k, 1 ≤ k → k ≤ m →
      ((driveSeq f k plan).steps.getD 0 defaultStep).error
        = some (annotError k m (e (k - 1)))) := by
  obtain ⟨h1, h2, h3⟩ := driveSeq_fail_char f e plan st m hsteps hpend hdep hrc hmax hfail
  refine ⟨?_, ?_, h3, ?_⟩
  · intro k hk
    by_cases hk0 : k = 0
    · subst hk0
      refine ⟨?_, ?_, hplan⟩
      · show (plan.steps.getD 0 defaultStep).status = StepStatus.pending
        rw [hsteps]
        exact hpend
      · show (plan.steps.getD 0 defaultStep).retryCount = 0
        rw [hsteps]
        exact hrc
    · rw [h1 k (by omega) hk]
      exact ⟨rfl, rfl, by simp⟩
  · rw [h2]
    exact ⟨rfl, rfl, rfl⟩
  · intro k hk1 hk
    rw [h1 k hk1 hk]
    rfl

/-- C1 witness: the general bound instantiated at `maxRetries = 3` with a
concrete always-failing oracle: four attempts, pending with `retryCount = 2`
after two cycles, one attempt per cycle, failed after the fourth cycle. -/
theorem retry_bound_witness :
    ((driveSeq (fun _ => alwaysFailOracle) 2
        (freshPlan [freshStep "s1" "execute_query" Value.vnull])).steps.getD 0
          defaultStep).retryCount = 2 ∧
    (executeOperationPlan alwaysFailOracle
      (driveSeq (fun _ => alwaysFailOracle) 1
        (freshPlan [freshStep "s1" "execute_query" Value.vnull]))).2 = [0] ∧
    ((driveSeq (fun _ => alwaysFailOracle) 4
        (freshPlan [freshStep "s1" "execute_query" Value.vnull])).steps.getD 0
          defaultStep).status = StepStatus.failed ∧
    (driveSeq (fun _ => alwaysFailOracle) 4
      (freshPlan [freshStep "s1" "execute_query" Value.vnull])).status
        = PlanStatus.failed :=
  ⟨((retry_bound (fun _ => alwaysFailOracle) (fun _ => "boom")
      (freshPlan [freshStep "s1" "execute_query" Value.vnull])
      (freshStep "s1" "execute_query" Value.vnull) 3
      rfl rfl rfl rfl rfl (by decide) (fun _ => rfl)).1 2 (by omega)).2.1,
   (retry_bound (fun _ => alwaysFailOracle) (fun _ => "boom")
      (freshPlan [freshStep "s1" "execute_query" Value.vnull])
      (freshStep "s1" "execute_query" Value.vnull) 3
      rfl rfl rfl rfl rfl (by decide) (fun _ => rfl)).2.2.1 1 (by omega),
   (retry_bound (fun _ => alwaysFailOracle) (fun _ => "boom")
      (freshPlan [freshStep "s1" "execute_query" Value.vnull])
      (freshStep "s1" "execute_query" Value.vnull) 3
      rfl rfl rfl rfl rfl (by decide) (fun _ => rfl)).2.1.1,
   (retry_bound (fun _ => alwaysFailOracle) (fun _ => "boom")
      (freshPlan [freshStep "s1" "execute_query" Value.vnull])
      (freshStep "s1" "execute_query" Value.vnull) 3
      rfl rfl rfl rfl rfl (by decide) (fun _ => rfl)).2.1.2.2⟩

/-- C2 counterexample: a step with an unrecognized tool name is NOT failed
immediately on the first attempt.  After one drive cycle on `unknownToolPlan`
(`toolName = "bogus_tool"`) the step is back to `pending` with
`retryCount = 1` and a retry-annotated error, and the plan is `executing`,
not `failed` — the `Unknown tool` throw goes through the generic retry
path. -/
theorem unknown_tool_not_immediate_fail :
    ((executeOperationPlan alwaysFailOracle unknownToolPlan).1.steps.getD 0
      defaultStep).status = StepStatus.pending ∧
    ((executeOperationPlan alwaysFailOracle unknownToolPlan).1.steps.getD 0
      defaultStep).retryCount = 1 ∧
    ((executeOperationPlan alwaysFailOracle unknownToolPlan).1.steps.getD 0
      defaultStep).error = some "Error (retry 1/3): Unknown tool: bogus_tool" ∧
    (executeOperationPlan alwaysFailOracle unknownToolPlan).1.status
      = PlanStatus.executing :=
  ⟨rfl, rfl, rfl, rfl⟩

/-- C2 (corrected).  A step whose `toolName` is unrecognized fails like any
other permanently failing step, not immediately: every attempt throws
`Unknown tool: <name>`, each non-final attempt returns the step to `pending`
with an incremented `retryCount` and an annotated error, and only after
`maxRetries + 1` attempts does the step become `failed` (with the raw
`Unknown tool` message), failing the plan. -/
theorem unknown_tool_retry_exhaustion (f : Nat → Oracle) (plan : OperationPlan)
    (st : OperationStep) (m : Nat)
    (hsteps : plan.steps = [st]) (hpend : st.status = StepStatus.pending)
    (hdep : st.dependsOn = none) (hrc : st.retryCount = 0) (hmax : st.maxRetries = m)
    (hq : st.toolName ≠ "execute_query") (hmu : st.toolName ≠ "execute_mutation")
    (hin : st.toolName ≠ "introspect_schema") (hws : st.toolName ≠ "web_search")
    (hproc : ∃ pp, processStepParameters st.params plan.context = some pp) :
    (∀ k, 1 ≤ k → k ≤ m →
      ((driveSeq f k plan).steps.getD 0 defaultStep).status = StepStatus.pending ∧
      ((driveSeq f k plan).steps.getD 0 defaultStep).retryCount = k ∧
      ((driveSeq f k plan).steps.getD 0 defaultStep).error
        = some (annotError k m ("Unknown tool: " ++ st.toolName))) ∧
    (((driveSeq f (m + 1) plan).steps.getD 0 defaultStep).status = StepStatus.failed ∧
      ((driveSeq f (m + 1) plan).steps.getD 0 defaultStep).retryCount = m + 1 ∧
      ((driveSeq f (m + 1) plan).steps.getD 0 defaultStep).error
        = some ("Unknown tool: " ++ st.toolName) ∧
      (driveSeq f (m + 1) plan).status = PlanStatus.failed) := by
  have hfail : ∀ n, runTool (f n) st.toolName st.params plan.context
      = Except.error ("Unknown tool: " ++ st.toolName) := by
    intro n
    obtain ⟨pp, hpp⟩ := hproc
    unfold runTool
    rw [hpp]
    simp only [if_neg hq, if_neg hmu, if_neg hin, if_neg hws]
  obtain ⟨h1, h2, _⟩ := driveSeq_fail_char f (fun _ => "Unknown tool: " ++ st.toolName)
    plan st m hsteps hpend hdep hrc hmax hfail
  constructor
  · intro k hk1 hk
    rw [h1 k hk1 hk]
    exact ⟨rfl, rfl, rfl⟩
  · rw [h2]
    exact ⟨rfl, rfl, rfl, rfl⟩

/-- C2 amended-claim witness: the unknown-tool plan, driven four times,
exhausts its retries exactly like a failing known tool. -/
theorem unknown_tool_retry_exhaustion_witness :
    ((driveSeq (fun _ => alwaysFailOracle) 1 unknownToolPlan).steps.getD 0
      defaultStep).retryCount = 1 ∧
    ((driveSeq (fun _ => alwaysFailOracle) 4 unknownToolPlan).steps.getD 0
      defaultStep).status = StepStatus.failed ∧
    ((driveSeq (fun _ => alwaysFailOracle) 4 unknownToolPlan).steps.getD 0
      defaultStep).error = some "Unknown tool: bogus_tool" :=
  ⟨((unknown_tool_retry_exhaustion (fun _ => alwaysFailOracle) unknownToolPlan
      (freshStep "s1" "bogus_tool" Value.vnull) 3
      rfl rfl rfl rfl rfl (by decide) (by decide) (by decide) (by decide)
      ⟨Value.vnull, rfl⟩).1 1 (by omega) (by omega)).2.1,
   (unknown_tool_retry_exhaustion (fun _ => alwaysFailOracle) unknownToolPlan
      (freshStep "s1" "bogus_tool" Value.vnull) 3
      rfl rfl rfl rfl rfl (by decide) (by decide) (by decide) (by decide)
      ⟨Value.vnull, rfl⟩).2.1,
   (unknown_tool_retry_exhaustion (fun _ => alwaysFailOracle) unknownToolPlan
      (freshStep "s1" "bogus_tool" Value.vnull) 3
      rfl rfl rfl rfl rfl (by decide) (by decide) (by decide) (by decide)
      ⟨Value.vnull, rfl⟩).2.2.2.1⟩

/-- C5 (confirmed).  Fail-fast: three independent steps, the second failing
permanently.  Driving to quiescence (four cycles, the fourth exhausting the
retries) leaves the plan `failed`, the first step `completed`, and the third
step still `pending`; the attempt lists of the four cycles are
`[[0, 1], [1], [1], [1]]`, so the third step's tool is never invoked — the
loop stops at the terminally failed step instead of trying the remaining
independent step. -/
theorem fail_fast :
    (driveSeq (fun _ => failFastOracle) 4 failFastPlan).status = PlanStatus.failed ∧
    ((driveSeq (fun _ => failFastOracle) 4 failFastPlan).steps.getD 0
      defaultStep).status = StepStatus.completed ∧
    ((driveSeq (fun _ => failFastOracle) 4 failFastPlan).steps.getD 1
      defaultStep).status = StepStatus.failed ∧
    ((driveSeq (fun _ => failFastOracle) 4 failFastPlan).steps.getD 2
      defaultStep).status = StepStatus.pending ∧
    (List.range 4).map (fun n =>
        (executeOperationPlan ((fun _ => failFastOracle) n)
          (driveSeq (fun _ => failFastOracle) n failFastPlan)).2)
      = [[0, 1], [1], [1], [1]] :=
  ⟨rfl, rfl, rfl, rfl, rfl⟩

/-- C6 (code_bug).  Resolver behaviour on the spec's examples: the string
case and the empty-context case behave as specified, but a numeric context
value is mangled: `JSON.stringify(42).slice(1, -1)` strips the first and last
characters of the numeral itself (there are no quotes to strip), so
substituting `foo = 42` yields `""` instead of the specified `"42"` (and
`foo = 123` yields `"2"`). -/
theorem resolver_numeric_slice_bug :
    processStepParameters (Value.vobj [("id", Value.vstr "\x7b\x7bfoo\x7d\x7d")])
        [("foo", Value.vstr "bar")] = some (Value.vobj [("id", Value.vstr "bar")]) ∧
    processStepParameters (Value.vobj [("id", Value.vstr "\x7b\x7bfoo\x7d\x7d")]) []
      = some (Value.vobj [("id", Value.vstr "\x7b\x7bfoo\x7d\x7d")]) ∧
    processStepParameters (Value.vobj [("id", Value.vstr "\x7b\x7bfoo\x7d\x7d")])
        [("foo", Value.vnum 42)] = some (Value.vobj [("id", Value.vstr "")]) ∧
    processStepParameters (Value.vobj [("id", Value.vstr "\x7b\x7bfoo\x7d\x7d")])
        [("foo", Value.vnum 123)] = some (Value.vobj [("id", Value.vstr "2")]) :=
  ⟨rfl, rfl, rfl, rfl⟩

/-- Folding writes for keys disjoint from `k` leaves `k`'s binding alone. -/
theorem foldl_ctxSet_not_mem (k : String) :
    ∀ (fs : List (String × Value)) (ctx : Context), (∀ kv ∈ fs, kv.1 ≠ k) →
      ctxLookup (fs.foldl (fun c p => ctxSet c p.1 p.2) ctx) k = ctxLookup ctx k := by
  intro fs
  induction fs with
  | nil => intro ctx _; rfl
  | cons e rest ih =>
    intro ctx hk
    simp only [List.foldl_cons]
    rw [ih (ctxSet ctx e.1 e.2) (fun kv hkv => hk kv (List.mem_cons_of_mem e hkv))]
    exact ctxLookup_ctxSet_ne ctx e.1 k e.2
      (fun h => hk e (List.mem_cons_self e rest) (h.symm ▸ rfl))

/-- Folding writes with pairwise-distinct keys binds each written key to its
value. -/
theorem foldl_ctxSet_mem (k : String) (v : Value) :
    ∀ (fs : List (String × Value)) (ctx : Context), (fs.map Prod.fst).Nodup →
      (k, v) ∈ fs →
      ctxLookup (fs.foldl (fun c p => ctxSet c p.1 p.2) ctx) k = some v := by
  intro fs
  induction fs with
  | nil => intro ctx _ hmem; exact absurd hmem (List.not_mem_nil _)
  | cons e rest ih =>
    intro ctx hnd hmem
    simp only [List.map_cons, List.nodup_cons] at hnd
    obtain ⟨hhead, htail⟩ := hnd
    simp only [List.foldl_cons]
    rcases List.mem_cons.mp hmem with he | hrest
    · subst he
      rw [foldl_ctxSet_not_mem k rest (ctxSet ctx k v) ?hdisj]
      · exact ctxLookup_ctxSet_self ctx k v
      · intro kv hkv he
        have hmem : kv.1 ∈ rest.map Prod.fst := List.mem_map_of_mem Prod.fst hkv
        rw [he] at hmem
        exact hhead hmem
    · exact ih (ctxSet ctx e.1 e.2) htail hrest

/-- C7 counterexample: a completed `introspect_schema` step whose tool result
carries the data payload `{productId: "X"}` does NOT get its payload keys
copied into the context: only the full result under the step id is stored,
and `context.productId` is undefined — the fold only applies to
`execute_query` and `execute_mutation` steps. -/
theorem introspect_data_not_folded :
    ((executeOperationPlan failFastOracle introspectPlan).1.steps.getD 0
      defaultStep).status = StepStatus.completed ∧
    ((executeOperationPlan failFastOracle introspectPlan).1.steps.getD 0
      defaultStep).result
      = some (Value.vobj [("data", Value.vobj [("productId", Value.vstr "X")])]) ∧
    ctxLookup (executeOperationPlan failFastOracle introspectPlan).1.context "s1"
      = some (Value.vobj [("data", Value.vobj [("productId", Value.vstr "X")])]) ∧
    ctxLookup (executeOperationPlan failFastOracle introspectPlan).1.context "productId"
      = none :=
  ⟨rfl, rfl, rfl, rfl⟩

/-- C7 (corrected).  Context fold: after a step completes, the context maps
the step's id to its full tool result; and only for `execute_query` and
`execute_mutation` steps with an object `data` payload, every top-level key
of the payload is also copied into the context under its own name,
overwriting earlier same-named bindings (other tools, e.g.
`introspect_schema`, only get the id binding — see the counterexample). -/
theorem context_fold_characterization (plan : OperationPlan) (step : OperationStep)
    (res : Value) (hres : step.result = some res) :
    (step.toolName ≠ "execute_query" → step.toolName ≠ "execute_mutation" →
      (updateOperationContext plan step).context = ctxSet plan.context step.id res) ∧
    (∀ fs, getField res "data" = some (Value.vobj fs) →
      (step.toolName = "execute_query" ∨ step.toolName = "execute_mutation") →
      (fs.map Prod.fst).Nodup →
      (∀ kv ∈ fs, ctxLookup (updateOperationContext plan step).context kv.1 = some kv.2) ∧
      (∀ k, (∀ kv ∈ fs, kv.1 ≠ k) → k ≠ step.id →
        ctxLookup (updateOperationContext plan step).context k
          = ctxLookup plan.context k) ∧
      ((∀ kv ∈ fs, kv.1 ≠ step.id) →
        ctxLookup (updateOperationContext plan step).context step.id = some res)) := by
  constructor
  · intro hq hm
    unfold updateOperationContext
    simp only [hres, Option.getD_some, if_neg hq, if_neg hm]
  · intro fs hdata htool hnd
    have hctx : (updateOperationContext plan step).context
        = fs.foldl (fun c p => ctxSet c p.1 p.2) (ctxSet plan.context step.id res) := by
      unfold updateOperationContext
      rcases htool with hq | hm
      · have hm' : step.toolName ≠ "execute_mutation" := by rw [hq]; decide
        simp only [hres, Option.getD_some, if_pos hq, if_neg hm', hdata]
        rfl
      · have hq' : step.toolName ≠ "execute_query" := by rw [hm]; decide
        simp only [hres, Option.getD_some, if_neg hq', if_pos hm, hdata]
        rfl
    refine ⟨?_, ?_, ?_⟩
    · intro kv hkv
      rw [hctx]
      exact foldl_ctxSet_mem kv.1 kv.2 fs _ hnd (by simpa using hkv)
    · intro k hk hkid
      rw [hctx]
      rw [foldl_ctxSet_not_mem k fs _ hk]
      exact ctxLookup_ctxSet_ne plan.context step.id k res hkid
    · intro hid
      rw [hctx]
      rw [foldl_ctxSet_not_mem step.id fs _ hid]
      exact ctxLookup_ctxSet_self plan.context step.id res

/-- C7 amended-claim witness: a completed `execute_query` step with payload
`{productId: "X"}` makes `context.productId = "X"` and keeps the full result
under the step id. -/
theorem context_fold_characterization_witness :
    ctxLookup (updateOperationContext (freshPlan [])
        { freshStep "s1" "execute_query" Value.vnull with
            status := StepStatus.completed,
            result := some (Value.vobj [("data",
              Value.vobj [("productId", Value.vstr "X")])]) }).context "productId"
      = some (Value.vstr "X") ∧
    ctxLookup (updateOperationContext (freshPlan [])
        { freshStep "s1" "execute_query" Value.vnull with
            status := StepStatus.completed,
            result := some (Value.vobj [("data",
              Value.vobj [("productId", Value.vstr "X")])]) }).context "s1"
      = some (Value.vobj [("data", Value.vobj [("productId", Value.vstr "X")])]) :=
  ⟨((context_fold_characterization (freshPlan [])
      { freshStep "s1" "execute_query" Value.vnull with
          status := StepStatus.completed,
          result := some (Value.vobj [("data",
            Value.vobj [("productId", Value.vstr "X")])]) }
      (Value.vobj [("data", Value.vobj [("productId", Value.vstr "X")])]) rfl).2
      [("productId", Value.vstr "X")] rfl (Or.inl rfl) (by decide)).1
      ("productId", Value.vstr "X") (List.mem_singleton_self _),
   ((context_fold_characterization (freshPlan [])
      { freshStep "s1" "execute_query" Value.vnull with
          status := StepStatus.completed,
          result := some (Value.vobj [("data",
            Value.vobj [("productId", Value.vstr "X")])]) }
      (Value.vobj [("data", Value.vobj [("productId", Value.vstr "X")])]) rfl).2
      [("productId", Value.vstr "X")] rfl (Or.inl rfl) (by decide)).2.2
      (by intro kv hkv
          rw [List.mem_singleton.mp hkv]
          decide)⟩

end OperationExecutor
